import Mathlib

/-!
Verification of the WikiColumn entity-resolution and caching engine.

The definitions below are a shallow embedding of the extension's Wikidata
client and IndexedDB cache wrapper (src/unnamed/part_005, part_007,
part_008, with the record types of part_010 / types.ts).  JavaScript
strings are modelled as Lean `String`/`List Char`, JS numbers holding
timestamps, counts and sizes as `Nat`, JS `Map` objects as insertion-ordered
association lists, and the external network surfaces (wbgetentities, the
SPARQL endpoint) as explicit function parameters whose per-batch outcome is
an `Except`, so that the batching logic is a pure, executable function that
also returns the trace of batch requests it issued.
-/

-- ===========================================================================
-- JavaScript primitives used by the source
-- ===========================================================================

/-- Set of characters matched by the JavaScript regex class `\s` and removed
by `String.prototype.trim` (ECMA-262 WhiteSpace plus LineTerminator). -/
def jsWhitespace (c : Char) : Bool :=
  c = '\t' || c = '\n' || c = '\u000B' || c = '\u000C' || c = '\r' || c = ' ' ||
  c = '\u00A0' || c = '\u1680' ||
  (decide ('\u2000' ≤ c) && decide (c ≤ '\u200A')) ||
  c = '\u2028' || c = '\u2029' || c = '\u202F' || c = '\u205F' ||
  c = '\u3000' || c = '\uFEFF'

/-- Value of `parseInt(digits, 10)` on a non-empty digit string, as a `Nat`
(the source only applies it to the digit groups of its regex matches). -/
def digitsToNat (ds : List Char) : Nat :=
  ds.foldl (fun n c => 10 * n + (c.toNat - '0'.toNat)) 0

/-- JavaScript `a || b` for strings: a falsy (empty) left operand selects the
right one.  An absent (`undefined`) field is modelled as `""`, which `||`
treats the same way. -/
def jsOr (a b : String) : String :=
  if a = "" then b else a

/-- JavaScript `s.toLowerCase()`, restricted to ASCII case mapping (the code
only compares entity labels; the claims under verification never exercise
non-ASCII case folding). -/
def jsToLower (s : String) : String :=
  ⟨s.data.map Char.toLower⟩

/-- Check for `s.startsWith(c)` with a single-character argument. -/
def startsWithChar (s : String) (c : Char) : Bool :=
  match s.data with
  | [] => false
  | c0 :: _ => c0 = c

-- ===========================================================================
-- Insertion-ordered maps (JavaScript Map semantics)
-- ===========================================================================

namespace MapList

/-- Lookup, as in `Map.prototype.get` (or `undefined`, modelled by `none`). -/
def get? (l : List (String × α)) (k : String) : Option α :=
  (l.find? (fun p => p.1 = k)).map (·.2)

/-- Update as in `Map.prototype.set`: overwrite in place if the key is
present, else append, preserving insertion order. -/
def set (l : List (String × α)) (k : String) (v : α) : List (String × α) :=
  if l.any (fun p => p.1 = k) then
    l.map (fun p => if p.1 = k then (k, v) else p)
  else
    l ++ [(k, v)]

/-- Increment step `map.set(k, (map.get(k) || 0) + 1)` used by the counting
loops of the sidebar. -/
def bump (l : List (String × Nat)) (k : String) : List (String × Nat) :=
  set l k (((get? l k).getD 0) + 1)

end MapList

-- ===========================================================================
-- Label normalization
-- ===========================================================================

/-- Greedy match-and-strip of the regex `^\d+\.\s*`: a maximal non-empty run
of digits, a literal period, then a maximal run of whitespace
(`.replace(/^\d+\.\s*/, '')` in `queryEntitiesByLabel` and
`getCachedEntitiesByLabel`). -/
def stripOrdinal (cs : List Char) : List Char :=
  match cs.takeWhile Char.isDigit, cs.dropWhile Char.isDigit with
  | [], _ => cs
  | _ :: _, '.' :: rest => rest.dropWhile jsWhitespace
  | _ :: _, _ => cs

/-- Strip of the regex `/‡$/`: one trailing double-dagger footnote glyph
(`.replace(/‡$/, '')`). -/
def stripDagger (cs : List Char) : List Char :=
  if cs.getLast? = some '‡' then cs.dropLast else cs

/-- JavaScript `String.prototype.trim`. -/
def jsTrim (cs : List Char) : List Char :=
  ((cs.dropWhile jsWhitespace).reverse.dropWhile jsWhitespace).reverse

/-- Label normalization applied before querying and caching:
`label.replace(/^\d+\.\s*/, '').replace(/‡$/, '').trim()`
(part_008 lines 1295 and 1549-1551). -/
def normalizeLabel (s : String) : String :=
  ⟨jsTrim (stripDagger (stripOrdinal s.data))⟩

-- ===========================================================================
-- Time, month, and claim-value formatting (part_008 lines 999-1147)
-- ===========================================================================

/-- Month-name table of `getMonthName`; `months[month - 1] || ''` yields the
empty string for any out-of-range month (including the JS negative index
`months[-1]` when `month = 0`). -/
def monthNames : List String :=
  ["January", "February", "March", "April", "May", "June",
   "July", "August", "September", "October", "November", "December"]

/-- Embedding of `getMonthName`. -/
def getMonthName (month : Nat) : String :=
  if month = 0 then "" else (monthNames.getD (month - 1) "")

/-- Body of `formatTimeValue` past the year group: the regex continues with
`-(\\d{2})-(\\d{2})`; on a match the precision switch formats the date
(precision 9 year, 10 month and year, 11 and every other value day, month
name, year — 11 is also the switch default), a negative year rendering as
`"N BCE"`; on no match the raw time string is returned. -/
def formatMatchedTime (time : String) (sign : Char) (year : List Char)
    (precision : Nat) : List Char → String
  | '-' :: m1 :: m2 :: '-' :: d1 :: d2 :: _ =>
      if m1.isDigit && m2.isDigit && d1.isDigit && d2.isDigit then
        let yearNum := digitsToNat year
        let displayYear :=
          if sign = '-' then toString yearNum ++ " BCE" else toString yearNum
        match precision with
        | 9 => displayYear
        | 10 => getMonthName (digitsToNat [m1, m2]) ++ " " ++ displayYear
        | _ =>
            toString (digitsToNat [d1, d2]) ++ " " ++
              getMonthName (digitsToNat [m1, m2]) ++ " " ++ displayYear
      else time
  | _ => time

/-- Embedding of `formatTimeValue`.  The regex
`^([+-])(\\d+)-(\\d{2})-(\\d{2})` is matched structurally: a sign, a maximal
non-empty digit run (the year), then the `-MM-DD` tail handled by
`formatMatchedTime`.  On no match the raw time string is returned. -/
def formatTimeValue (time : String) (precision : Nat) : String :=
  match time.data with
  | [] => time
  | sign :: rest =>
    if sign = '+' ∨ sign = '-' then
      if (rest.takeWhile Char.isDigit).isEmpty then time
      else
        formatMatchedTime time sign (rest.takeWhile Char.isDigit) precision
          (rest.dropWhile Char.isDigit)
    else time

-- ===========================================================================
-- Data model (types.ts / part_010)
-- ===========================================================================

/-- Raw Wikidata datavalue (`WikidataDataValue`): the JSON carries an open
`type` string and a `value` whose shape depends on it.  Each handled type of
the `parseDataValue` dispatch table is a constructor carrying the fields the
code reads; `otherValue` stands for a datavalue whose `type` is any string
outside that table, carrying its `JSON.stringify` serialization. -/
inductive WikidataDataValue where
  | entityid (entityType : String) (id : String)
  | stringValue (s : String)
  | timeValue (time : String) (precision : Nat)
  | quantityValue (amount : String) (unit : String)
  | globeValue (latitude longitude : Float)
  | monolingualtext (text : String) (language : String)
  | otherValue (typeName : String) (serialized : String)

/-- Main snak of a raw claim (`WikidataSnak`; the unread `property` and
`datatype` fields are omitted). -/
structure WikidataSnak where
  snaktype : String
  datavalue : Option WikidataDataValue

/-- Raw claim of an entity record (`WikidataClaim`; the unread `type` and
`rank` fields are omitted). -/
structure WikidataClaim where
  mainsnak : WikidataSnak

/-- Raw entity record returned by `wbgetentities` (`WikidataEntity`).
Language-indexed label/description records are association lists; `claims`
keeps the `claims?:` optionality that `parseClaims` tests. -/
structure WikidataEntity where
  id : String
  labels : List (String × String)
  descriptions : List (String × String)
  claims : Option (List (String × List WikidataClaim))

/-- Cached entity (`WikidataItem`).  The raw `json` payload the source also
stores is omitted: none of the verified operations read it. -/
structure WikidataItem where
  qid : String
  label : String
  description : Option String
  cachedAt : Nat
deriving DecidableEq

/-- Cached property (`WikidataProperty`). -/
structure WikidataProperty where
  pid : String
  label : String
  description : String
  usage : Nat
  visible : Bool
  cachedAt : Nat
deriving DecidableEq

/-- Parsed claim value (`ClaimValue`); `type` is one of the six display-kind
strings. -/
structure ClaimValue where
  type : String
  value : String
  qid : Option String
deriving DecidableEq

/-- Cached claim (`Claim`): all parsed values one entity has for one
property.  `parseClaims` leaves `cachedAt` unset (modelled as 0); the save
paths stamp it. -/
structure Claim where
  qid : String
  pid : String
  values : List ClaimValue
  cachedAt : Nat
deriving DecidableEq

/-- One SPARQL match for a label (`LabelMatch`). -/
structure LabelMatch where
  itemLabel : String
  instanceOf : List String
deriving DecidableEq

/-- Cached SPARQL query result for one normalized label
(`LabelCacheEntry`). -/
structure LabelCacheEntry where
  label : String
  results : List (String × LabelMatch)
  cachedAt : Nat
deriving DecidableEq

-- ===========================================================================
-- TTL cache layer (WikiColumnDB, part_007)
-- ===========================================================================

/-- Cache TTL: 24 hours in milliseconds (`CACHE_TTL_MS`). -/
def CACHE_TTL_MS : Nat := 24 * 60 * 60 * 1000

/-- Embedding of `WikiColumnDB.isFresh` (part_007 lines 95-98): the guard
`if (!cachedAt) return false` treats an absent, zero or NaN timestamp as not
fresh; a present timestamp is fresh iff `Date.now() - cachedAt <
CACHE_TTL_MS`.  The ambient `Date.now()` is the explicit `now` parameter;
JS subtraction below the TTL bound on a future timestamp is negative and
therefore fresh, which truncated `Nat` subtraction also yields. -/
def isFresh (now : Nat) (cachedAt : Nat) : Bool :=
  if cachedAt = 0 then false else decide (now - cachedAt < CACHE_TTL_MS)

/-- Common shape of the per-key freshness loops: each key is classified
(`some v` goes to the fresh map via `Map.set`, `none` is pushed onto the
stale list), in input order. -/
def partitionByClassifier (classify : String → Option α) (keys : List String) :
    List (String × α) × List String :=
  keys.foldl
    (fun acc k =>
      match classify k with
      | some v => (MapList.set acc.1 k v, acc.2)
      | none => (acc.1, acc.2 ++ [k]))
    ([], [])

/-- Classifier of the item/property/label-cache freshness reads: a stored
record that is fresh, or nothing. -/
def freshRecord (now : Nat) (lookup : String → Option α) (stamp : α → Nat)
    (k : String) : Option α :=
  match lookup k with
  | some r => if isFresh now (stamp r) then some r else none
  | none => none

/-- Embedding of `WikiColumnDB.getFreshItems` (part_007 lines 197-221): per
QID, a present and fresh record goes into the `fresh` map, every other QID
onto the `stale` list.  The store is a pure lookup; the function takes no
network client. -/
def getFreshItems (now : Nat) (items : String → Option WikidataItem)
    (qids : List String) : List (String × WikidataItem) × List String :=
  partitionByClassifier (freshRecord now items (·.cachedAt)) qids

/-- Embedding of `WikiColumnDB.getFreshProperties` (part_007 lines 311-335). -/
def getFreshProperties (now : Nat) (props : String → Option WikidataProperty)
    (pids : List String) : List (String × WikidataProperty) × List String :=
  partitionByClassifier (freshRecord now props (·.cachedAt)) pids

/-- Embedding of `WikiColumnDB.getFreshLabelCaches` (part_007 lines
569-593). -/
def getFreshLabelCaches (now : Nat) (labelCache : String → Option LabelCacheEntry)
    (labels : List String) : List (String × LabelCacheEntry) × List String :=
  partitionByClassifier (freshRecord now labelCache (·.cachedAt)) labels

/-- Embedding of `WikiColumnDB.getClaimsByQid`: the `qid` index returns every
stored claim of that entity. -/
def getClaimsByQid (claimsStore : List Claim) (qid : String) : List Claim :=
  claimsStore.filter (fun c => c.qid = qid)

/-- Embedding of `WikiColumnDB.getFreshClaimsByQid` (part_007 lines 460-477):
if no claim exists for the QID or any of its claims is stale, the whole
claim set is reported stale with an empty fresh list; otherwise all claims
are returned fresh. -/
def getFreshClaimsByQid (now : Nat) (claimsStore : List Claim) (qid : String) :
    List Claim × Bool :=
  let claims := getClaimsByQid claimsStore qid
  let isStale := claims.isEmpty || claims.any (fun c => !isFresh now c.cachedAt)
  if isStale then ([], true) else (claims, false)

/-- Embedding of `WikiColumnDB.getFreshClaimsByQids` (part_007 lines
479-493): the per-entity rule applied independently to each input QID. -/
def getFreshClaimsByQids (now : Nat) (claimsStore : List Claim)
    (qids : List String) : List (String × List Claim) × List String :=
  partitionByClassifier
    (fun qid =>
      let result := getFreshClaimsByQid now claimsStore qid
      if result.2 then none else some result.1)
    qids

/-- Embedding of `WikiColumnDB.saveItems` (part_007 lines 165-179): upsert of
each item with a refreshed `cachedAt` stamp. -/
def saveItems (now : Nat) (items : String → Option WikidataItem)
    (toSave : List WikidataItem) : String → Option WikidataItem :=
  toSave.foldl
    (fun store item k =>
      if k = item.qid then some { item with cachedAt := now } else store k)
    items

/-- Embedding of `WikiColumnDB.saveProperties` (part_007 lines 277-293).
Despite its inline comment `Check if exists first (INSERT OR IGNORE)`, the
loop body is a plain `store.put`, an unconditional upsert that overwrites an
existing record, including its `usage` and `visible` fields. -/
def saveProperties (now : Nat) (props : String → Option WikidataProperty)
    (toSave : List WikidataProperty) : String → Option WikidataProperty :=
  toSave.foldl
    (fun store prop k =>
      if k = prop.pid then some { prop with cachedAt := now } else store k)
    props

/-- Embedding of `WikiColumnDB.incrementPropertyUsage` (part_007 lines
411-428): add one to the stored usage counter of an existing property; a
missing property is left untouched. -/
def incrementPropertyUsage (props : String → Option WikidataProperty)
    (pid : String) : String → Option WikidataProperty :=
  match props pid with
  | some property =>
      fun k => if k = pid then some { property with usage := property.usage + 1 } else props k
  | none => props

/-- Embedding of `WikiColumnDB.saveLabelCacheEntries` (part_007 lines
537-551). -/
def saveLabelCacheEntries (now : Nat) (labelCache : String → Option LabelCacheEntry)
    (toSave : List LabelCacheEntry) : String → Option LabelCacheEntry :=
  toSave.foldl
    (fun store entry k =>
      if k = entry.label then some { entry with cachedAt := now } else store k)
    labelCache

-- ===========================================================================
-- Batched graph client (part_008)
-- ===========================================================================

/-- Maximum entities per `wbgetentities` request (`BATCH_SIZE`). -/
def BATCH_SIZE : Nat := 50

/-- Maximum terms per SPARQL query (`SPARQL_BATCH_SIZE`). -/
def SPARQL_BATCH_SIZE : Nat := 100

/-- Chunking worker for a positive chunk size `s + 1`: each chunk is the next
`slice(i, i + size)` of the JS loop.  The explicit fuel (strictly more than
the list length, each step consuming at least one element) keeps the
recursion structural, so the function evaluates inside the kernel. -/
def chunkFuel : Nat → List α → Nat → List (List α)
  | 0, _, _ => []
  | _ + 1, [], _ => []
  | fuel + 1, a :: rest, s => (a :: rest.take s) :: chunkFuel fuel (rest.drop s) s

/-- Embedding of `batchArray` (part_008 lines 758-764): split into
consecutive chunks of at most `size` elements.  The JS loop does not
terminate for `size = 0`; the source only calls it with the positive
constants `BATCH_SIZE` and `SPARQL_BATCH_SIZE`, and the model returns no
batches for size 0. -/
def batchArray (l : List α) (size : Nat) : List (List α) :=
  match size with
  | 0 => []
  | s + 1 => chunkFuel (l.length + 1) l s

/-- Sequential batch loop shared by the client functions: every batch is
issued (appended to the request trace) in order; `handle` folds one batch
outcome into the accumulated results.  A failed batch leaves the results
untouched, which is how the per-batch `try/catch` of the source recovers. -/
def runBatches (handle : ρ → List String → ρ) (batches : List (List String))
    (init : ρ) : ρ × List (List String) :=
  batches.foldl (fun acc batch => (handle acc.1 batch, acc.2 ++ [batch])) (init, [])

/-- Outcome of one `wbgetentities` batch request: `error` models a thrown
network or JSON-parse failure, `ok` the parsed `data.entities` entries (an
error response body without `entities` is `ok []`). -/
abbrev EntityApi := List String → Except Unit (List (String × WikidataEntity))

/-- Conversion of one `data.entities` entry to a cached item in
`getEntityData`: `entity.labels?.[lang]?.value || qid` and the optional
description.  The item is stored without a timestamp (`cachedAt = 0`) until
a save path stamps it. -/
def mkItemFromEntity (lang qid : String) (entity : WikidataEntity) : WikidataItem :=
  { qid := qid,
    label := jsOr ((MapList.get? entity.labels lang).getD "") qid,
    description := MapList.get? entity.descriptions lang,
    cachedAt := 0 }

/-- Embedding of `getEntityData` (part_008 lines 842-885): chunk the QIDs
into batches of at most `BATCH_SIZE`, issue them sequentially, keep the
entries whose key starts with `Q`, and treat a failed batch as zero results
without aborting the remaining batches.  The second component is the trace
of issued batch requests. -/
def getEntityData (api : EntityApi) (lang : String) (qids : List String) :
    List (String × WikidataItem) × List (List String) :=
  runBatches
    (fun results batch =>
      match api batch with
      | .error _ => results
      | .ok entities =>
          entities.foldl
            (fun rs entry =>
              if startsWithChar entry.1 'Q' then
                MapList.set rs entry.1 (mkItemFromEntity lang entry.1 entry.2)
              else rs)
            results)
    (batchArray qids BATCH_SIZE) []

/-- Conversion of one `data.entities` entry to a property record in
`getPropertyInfo`: label falls back to the PID, description to the empty
string, usage starts at 0 and the property is visible. -/
def mkPropertyFromEntity (lang pid : String) (entity : WikidataEntity) :
    WikidataProperty :=
  { pid := pid,
    label := jsOr ((MapList.get? entity.labels lang).getD "") pid,
    description := (MapList.get? entity.descriptions lang).getD "",
    usage := 0,
    visible := true,
    cachedAt := 0 }

/-- Embedding of `getPropertyInfo` (part_008 lines 1159-1201): like
`getEntityData` but keeping keys that start with `P` and building fresh
`WikidataProperty` records with `usage: 0, visible: true`. -/
def getPropertyInfo (api : EntityApi) (lang : String) (pids : List String) :
    List (String × WikidataProperty) × List (List String) :=
  runBatches
    (fun results batch =>
      match api batch with
      | .error _ => results
      | .ok entities =>
          entities.foldl
            (fun rs entry =>
              if startsWithChar entry.1 'P' then
                MapList.set rs entry.1 (mkPropertyFromEntity lang entry.1 entry.2)
              else rs)
            results)
    (batchArray pids BATCH_SIZE) []

/-- One flat SPARQL binding row; absent optional bindings
(`itemLabel?.value`, `instanceOfLabel?.value`) are modelled as `""`, which
is exactly how the `|| fallback` reads them. -/
structure SparqlBinding where
  qid : String
  name : String
  itemLabel : String
  instanceOfLabel : String

/-- Outcome of one SPARQL batch request: `error` models a thrown fetch/JSON
failure or a non-success HTTP status (both paths skip to the next batch),
`ok` the parsed result bindings. -/
abbrev SparqlApi := List String → Except Unit (List SparqlBinding)

/-- Regrouping of one SPARQL binding (part_008 lines 1336-1370): find the
batch label matching the bound `name` case-insensitively, then record the
candidate QID, deduplicating its accumulated `instanceOf` list. -/
def addBinding (batch : List String)
    (results : List (String × List (String × LabelMatch)))
    (binding : SparqlBinding) : List (String × List (String × LabelMatch)) :=
  let itemLabel := jsOr binding.itemLabel binding.name
  let instanceOf := binding.instanceOfLabel
  match batch.find? (fun l => jsToLower l = jsToLower binding.name) with
  | none => results
  | some matchingLabel =>
      let qidMap := (MapList.get? results matchingLabel).getD []
      let qidMap :=
        match MapList.get? qidMap binding.qid with
        | none =>
            MapList.set qidMap binding.qid
              ⟨itemLabel, if instanceOf = "" then [] else [instanceOf]⟩
        | some existing =>
            if instanceOf ≠ "" ∧ instanceOf ∉ existing.instanceOf then
              MapList.set qidMap binding.qid
                ⟨existing.itemLabel, existing.instanceOf ++ [instanceOf]⟩
            else qidMap
      MapList.set results matchingLabel qidMap

/-- Embedding of `queryEntitiesByLabel` (part_008 lines 1285-1377):
normalize the labels, chunk them into batches of at most
`SPARQL_BATCH_SIZE`, issue the batches sequentially, regroup the flat
bindings per matched label, and treat a failed batch as zero results
without aborting the remaining batches. -/
def queryEntitiesByLabel (api : SparqlApi) (labels : List String) :
    List (String × List (String × LabelMatch)) × List (List String) :=
  let normalized := labels.map normalizeLabel
  runBatches
    (fun results batch =>
      match api batch with
      | .error _ => results
      | .ok bindings => bindings.foldl (addBinding batch) results)
    (batchArray normalized SPARQL_BATCH_SIZE) []

-- ===========================================================================
-- Claim parsing (part_008 lines 999-1094)
-- ===========================================================================

/-- Embedding of `parseDataValue`.  The dispatch on the datavalue `type`
string is total: `wikibase-entityid` values whose `entity-type` is not
`item` yield `null` (`none`), every unhandled type yields an `unknown`
value carrying its serialized form.  Quantity and coordinate rendering
(`parseFloat(...).toLocaleString()` and `toFixed(4)`) are IEEE-754 and
locale dependent, so they are taken as the function parameters `fq` and
`fc`; no verified claim depends on their output. -/
def parseDataValue (fq : String → String) (fc : Float → Float → String) :
    WikidataDataValue → Option ClaimValue
  | .entityid entityType id =>
      if entityType = "item" then some ⟨"wikibase-item", id, some id⟩ else none
  | .stringValue s => some ⟨"string", s, none⟩
  | .timeValue time precision => some ⟨"time", formatTimeValue time precision, none⟩
  | .quantityValue amount _ => some ⟨"quantity", fq amount, none⟩
  | .globeValue latitude longitude => some ⟨"coordinate", fc latitude longitude, none⟩
  | .monolingualtext text _ => some ⟨"string", text, none⟩
  | .otherValue _ serialized => some ⟨"unknown", serialized, none⟩

/-- Inner loop of `parseClaims` over one property's raw claim array: skip
claims whose snak type is not `value` or whose value slot is absent, parse
the rest, and drop `null` parses. -/
def claimValuesOf (fq : String → String) (fc : Float → Float → String)
    (claimArray : List WikidataClaim) : List ClaimValue :=
  claimArray.filterMap
    (fun claim =>
      if claim.mainsnak.snaktype = "value" then
        claim.mainsnak.datavalue.bind (parseDataValue fq fc)
      else none)

/-- Embedding of `parseClaims` (part_008 lines 999-1029): one `Claim` per
property with at least one convertible value; properties whose values all
drop out are omitted. -/
def parseClaims (fq : String → String) (fc : Float → Float → String)
    (entity : WikidataEntity) : List Claim :=
  match entity.claims with
  | none => []
  | some claimsRecord =>
      claimsRecord.filterMap
        (fun e =>
          let values := claimValuesOf fq fc e.2
          if values.length > 0 then some ⟨entity.id, e.1, values, 0⟩ else none)

-- ===========================================================================
-- Cached API functions (part_008 lines 1462-1621)
-- ===========================================================================

/-- Embedding of `getCachedEntityData` (part_008 lines 1462-1494): partition
the QIDs by freshness, return directly from cache when nothing is stale,
otherwise fetch only the stale QIDs, save the fetched items, and merge them
over the fresh ones.  Returns the result map, the updated item store, and
the trace of issued batch requests. -/
def getCachedEntityData (now : Nat) (api : EntityApi) (lang : String)
    (items : String → Option WikidataItem) (qids : List String) :
    List (String × WikidataItem) × (String → Option WikidataItem) × List (List String) :=
  if qids.isEmpty then ([], items, [])
  else
    let part := getFreshItems now items qids
    if part.2.isEmpty then (part.1, items, [])
    else
      let fetchResult := getEntityData api lang part.2
      let fetched := fetchResult.1
      let items' := if fetched.isEmpty then items else saveItems now items (fetched.map (·.2))
      (fetched.foldl (fun f e => MapList.set f e.1 e.2) part.1, items', fetchResult.2)

/-- Embedding of `getCachedPropertyInfo` (part_008 lines 1499-1536): same
scheme over the property store; note that the save path is the upserting
`saveProperties`. -/
def getCachedPropertyInfo (now : Nat) (api : EntityApi) (lang : String)
    (props : String → Option WikidataProperty) (pids : List String) :
    List (String × WikidataProperty) × (String → Option WikidataProperty) × List (List String) :=
  if pids.isEmpty then ([], props, [])
  else
    let part := getFreshProperties now props pids
    if part.2.isEmpty then (part.1, props, [])
    else
      let fetchResult := getPropertyInfo api lang part.2
      let fetched := fetchResult.1
      let props' := if fetched.isEmpty then props else saveProperties now props (fetched.map (·.2))
      (fetched.foldl (fun f e => MapList.set f e.1 e.2) part.1, props', fetchResult.2)

/-- Conversion of one fresh cache entry back to the result format of
`getCachedEntitiesByLabel` (the `Object.entries` loop). -/
def labelEntryToMatches (entry : LabelCacheEntry) : List (String × LabelMatch) :=
  entry.results.foldl
    (fun qidMap e => MapList.set qidMap e.1 ⟨e.2.itemLabel, e.2.instanceOf⟩) []

/-- Embedding of `getCachedEntitiesByLabel` (part_008 lines 1541-1621):
normalize the labels, partition them by label-cache freshness, convert the
fresh entries, and when stale labels remain query them via SPARQL, cache
the fetched groupings together with empty negative entries for stale labels
that returned nothing, and merge fetched over cached results. -/
def getCachedEntitiesByLabel (now : Nat) (api : SparqlApi)
    (labelCache : String → Option LabelCacheEntry) (labels : List String) :
    List (String × List (String × LabelMatch)) × (String → Option LabelCacheEntry) × List (List String) :=
  if labels.isEmpty then ([], labelCache, [])
  else
    let normalizedLabels := labels.map normalizeLabel
    let part := getFreshLabelCaches now labelCache normalizedLabels
    let results := part.1.foldl (fun rs e => MapList.set rs e.1 (labelEntryToMatches e.2)) []
    if part.2.isEmpty then (results, labelCache, [])
    else
      let fetchResult := queryEntitiesByLabel api part.2
      let fetched := fetchResult.1
      let cacheEntries :=
        fetched.map (fun e => LabelCacheEntry.mk e.1 e.2 now) ++
          (part.2.filter (fun l => (MapList.get? fetched l).isNone)).map
            (fun l => LabelCacheEntry.mk l [] now)
      let labelCache' :=
        if cacheEntries.isEmpty then labelCache
        else saveLabelCacheEntries now labelCache cacheEntries
      (fetched.foldl (fun rs e => MapList.set rs e.1 e.2) results, labelCache', fetchResult.2)

-- ===========================================================================
-- Sidebar analytics (part_005)
-- ===========================================================================

/-- Accumulation step of the per-row type set: each non-empty type string is
added once (`Set.prototype.add` with the `if (instanceType)` truthiness
test), in first-encounter order. -/
def addTypes (acc : List String) (types : List String) : List String :=
  types.foldl
    (fun acc2 instanceType =>
      if instanceType ≠ "" ∧ instanceType ∉ acc2 then acc2 ++ [instanceType]
      else acc2)
    acc

/-- Union of the instance-of types over one row's candidate set, deduplicated
and in first-encounter order (matchWikidata lines 666-674). -/
def typesForRow (qidMap : List (String × LabelMatch)) : List String :=
  qidMap.foldl (fun acc e => addTypes acc e.2.instanceOf) []

/-- Per-type row counts of `matchWikidata` (lines 662-679): each type is
counted once per entry of the label-to-candidates map. -/
def instanceOfCounts (labelToQidMap : List (String × List (String × LabelMatch))) :
    List (String × Nat) :=
  labelToQidMap.foldl (fun counts e => (typesForRow e.2).foldl MapList.bump counts) []

/-- Rounded percentage `Math.round((count / total) * 100)`, computed over the
exact rational value; equals `floor((200 * count + total) / (2 * total))`
for positive `total` (and the source guards `total > 0`). -/
def jsRoundPct (count total : Nat) : Nat :=
  (200 * count + total) / (2 * total)

/-- Score conversion of `matchWikidata` (lines 681-688): counts to rounded
percentages over the size of the label-to-candidates map
(`totalLabelsWithResults = labelToQidMap.size`). -/
def instanceOfScores (labelToQidMap : List (String × List (String × LabelMatch))) :
    List (String × Nat) :=
  (instanceOfCounts labelToQidMap).map
    (fun e => (e.1, if 0 < labelToQidMap.length then jsRoundPct e.2 labelToQidMap.length else 0))

/-- Maximum of the score values (`Math.max(...instanceOfScores.values())`;
only evaluated behind the non-empty guard, where the fold from 0 agrees
because scores are non-negative). -/
def maxScoreOf (scores : List (String × Nat)) : Nat :=
  (scores.map (·.2)).foldl max 0

/-- Primary instance types of `matchWikidata` (lines 690-697): all types
tied for the maximum score, or none when there are no scores. -/
def primaryInstanceTypes (labelToQidMap : List (String × List (String × LabelMatch))) :
    List String :=
  let scores := instanceOfScores labelToQidMap
  if scores.isEmpty then []
  else (scores.filter (fun e => e.2 = maxScoreOf scores)).map (·.1)

/-- Per-claim step of the `seenProperties` dedup loop in
`calculatePropertyStats`: a property id not seen yet for the current entity
is recorded and its row-coverage counter bumped. -/
def seenBump (st : List String × List (String × Nat)) (pid : String) :
    List String × List (String × Nat) :=
  if pid ∈ st.1 then st else (st.1 ++ [pid], MapList.bump st.2 pid)

/-- Addition on an optional counter, mirroring `(map.get(k) || 0) + n` with
`none` kept for never-touched keys (proof bookkeeping for the counting
loops). -/
def optAdd (o : Option Nat) (n : Nat) : Option Nat :=
  match o, n with
  | none, 0 => none
  | o, n => some (o.getD 0 + n)

/-- Result entries pushed by `calculatePropertyStats`; `globalUsage` carries
`property.usage || 0`, which on the `Nat` model is `property.usage`. -/
structure AvailableProperty where
  pid : String
  label : String
  description : String
  count : Nat
  percentage : Nat
  visible : Bool
  globalUsage : Nat
deriving DecidableEq

/-- Boolean rendering of the sort comparator of `calculatePropertyStats`
(lines 884-891): `a` sorts no later than `b` iff `a` has strictly larger
global usage, or equal global usage and no smaller percentage.  The JS
comparator returns `b.globalUsage - a.globalUsage` when those differ and
`b.percentage - a.percentage` otherwise, and `Array.prototype.sort` is
stable, as is `List.mergeSort`. -/
def propertyCompare (a b : AvailableProperty) : Bool :=
  decide (b.globalUsage < a.globalUsage) ||
    (decide (a.globalUsage = b.globalUsage) && decide (b.percentage ≤ a.percentage))

/-- Row-coverage counting loop of `calculatePropertyStats` (lines 850-864):
for each input QID, every distinct property id among its stored claims bumps
that property's counter once. -/
def propertyCountsOf (claimsStore : List Claim) (qids : List String) :
    List (String × Nat) :=
  qids.foldl
    (fun counts qid =>
      ((getClaimsByQid claimsStore qid).foldl (fun st claim => seenBump st claim.pid)
        (([] : List String), counts)).2)
    []

/-- One result entry of `calculatePropertyStats`: the pushed object for a
counted property, with the rounded row-coverage percentage over the number
of input QIDs and the stored global usage (`property.usage || 0`). -/
def mkAvailable (totalRows : Nat) (e : String × Nat) (property : WikidataProperty) :
    AvailableProperty :=
  { pid := e.1, label := property.label, description := property.description,
    count := e.2, percentage := jsRoundPct e.2 totalRows,
    visible := property.visible, globalUsage := property.usage }

/-- Stats-building loop of `calculatePropertyStats` (lines 866-882): one
entry per counted property found in the property store. -/
def availablePropertiesOf (claimsStore : List Claim)
    (props : String → Option WikidataProperty) (qids : List String) :
    List AvailableProperty :=
  (propertyCountsOf claimsStore qids).foldl
    (fun acc e =>
      match props e.1 with
      | some property => acc ++ [mkAvailable qids.length e property]
      | none => acc)
    []

/-- Embedding of `calculatePropertyStats` (part_005 lines 849-891): count
per property the rows whose entity exposes it (a per-entity `seenProperties`
set dedupes multi-claim properties), build one stat entry per counted
property that exists in the property store, and sort by global usage then
coverage percentage, both descending (a stable sort, like
`Array.prototype.sort`). -/
def calculatePropertyStats (claimsStore : List Claim)
    (props : String → Option WikidataProperty) (qids : List String) :
    List AvailableProperty :=
  (availablePropertiesOf claimsStore props qids).mergeSort propertyCompare

-- ===========================================================================
-- Characterization helpers used by the claim statements
-- ===========================================================================

/-- Number of map entries (rows) whose candidate set contributes the instance
type `t` (each row counted once). -/
def claimRowCount (labelToQidMap : List (String × List (String × LabelMatch)))
    (t : String) : Nat :=
  (labelToQidMap.filter (fun e => t ∈ typesForRow e.2)).length

/-- Modelled from the spec: the score denominator the claim describes, `the
number of rows that had at least one candidate`.  The code instead divides
by the total number of map entries, which can also include labels whose
cached query result is empty. -/
def specCandidateRowCount (labelToQidMap : List (String × List (String × LabelMatch))) : Nat :=
  (labelToQidMap.filter (fun e => !e.2.isEmpty)).length

/-- Number of input rows whose entity exposes property `pid` (row coverage
numerator of `calculatePropertyStats`). -/
def rowCoverage (claimsStore : List Claim) (qids : List String) (pid : String) : Nat :=
  (qids.filter (fun qid => pid ∈ (getClaimsByQid claimsStore qid).map (·.pid))).length

/-- Specification of one freshness-partition read over a keyed store: the
fresh map and stale list cover the input keys with no overlap and no
omission, fresh entries are exactly the present-and-fresh records, and a
key is stale iff its record is absent or aged at least `CACHE_TTL_MS`
(given records carry the positive `Date.now()` stamps the save paths
write). -/
def FreshnessPartitionSpec (now : Nat) (lookup : String → Option α) (stamp : α → Nat)
    (partitionOf : List String → List (String × α) × List String) : Prop :=
  ∀ keys : List String,
    (∀ k ∈ keys, (∃ r, (k, r) ∈ (partitionOf keys).1) ↔ k ∉ (partitionOf keys).2) ∧
    (∀ k r, (k, r) ∈ (partitionOf keys).1 →
      k ∈ keys ∧ lookup k = some r ∧ now - stamp r < CACHE_TTL_MS) ∧
    (∀ k ∈ (partitionOf keys).2, k ∈ keys) ∧
    (∀ k ∈ keys, (k ∈ (partitionOf keys).2 ↔
      lookup k = none ∨ ∃ r, lookup k = some r ∧ CACHE_TTL_MS ≤ now - stamp r))

-- ===========================================================================
-- Supporting lemmas
-- ===========================================================================

theorem MapList.mem_set {l : List (String × α)} {k : String} {v : α} {x : String × α} :
    x ∈ MapList.set l k v ↔ x = (k, v) ∨ (x ∈ l ∧ x.1 ≠ k) := by
  unfold MapList.set
  by_cases h : ∃ p ∈ l, p.1 = k
  · have hany : l.any (fun p => p.1 = k) = true := by
      rcases h with ⟨p, hp, hk⟩
      exact List.any_eq_true.mpr ⟨p, hp, by simp [hk]⟩
    rw [if_pos hany]
    rw [List.mem_map]
    constructor
    · rintro ⟨p, hp, hx⟩
      by_cases hk : p.1 = k
      · left; rw [← hx]; simp [hk]
      · right
        rw [if_neg hk] at hx
        exact ⟨hx ▸ hp, hx ▸ hk⟩
    · rintro (rfl | ⟨hx, hne⟩)
      · rcases h with ⟨p, hp, hpk⟩
        exact ⟨p, hp, by simp [hpk]⟩
      · exact ⟨x, hx, by simp [hne]⟩
  · have hnot : ¬ (l.any (fun p => p.1 = k) = true) := by
      intro hc
      rcases List.any_eq_true.mp hc with ⟨p, hp, hk⟩
      exact h ⟨p, hp, by simpa using hk⟩
    rw [if_neg hnot, List.mem_append, List.mem_singleton]
    have hno : ∀ p ∈ l, p.1 ≠ k := fun p hp hk => h ⟨p, hp, hk⟩
    constructor
    · rintro (hx | rfl)
      · exact Or.inr ⟨hx, hno x hx⟩
      · exact Or.inl rfl
    · rintro (rfl | ⟨hx, _⟩)
      · exact Or.inr rfl
      · exact Or.inl hx

theorem MapList.get?_eq_some_mem {l : List (String × α)} {k : String} {v : α}
    (h : MapList.get? l k = some v) : (k, v) ∈ l := by
  unfold MapList.get? at h
  rcases Option.map_eq_some'.mp h with ⟨p, hp, hv⟩
  have hk : p.1 = k := by simpa using List.find?_some hp
  have hm := List.mem_of_find?_eq_some hp
  rcases p with ⟨k', v'⟩
  simp only at hk hv
  subst hk
  subst hv
  exact hm

theorem MapList.get?_eq_none_iff {l : List (String × α)} {k : String} :
    MapList.get? l k = none ↔ ∀ v, (k, v) ∉ l := by
  unfold MapList.get?
  rw [Option.map_eq_none', List.find?_eq_none]
  constructor
  · intro h v hv
    have := h _ hv
    simp at this
  · intro h p hp hpk
    rcases p with ⟨k', v'⟩
    simp only [decide_eq_true_eq] at hpk
    subst hpk
    exact h v' hp

theorem MapList.get?_set_self {l : List (String × α)} {k : String} {v : α} :
    MapList.get? (MapList.set l k v) k = some v := by
  unfold MapList.get? MapList.set
  by_cases h : l.any (fun p => p.1 = k)
  · rw [if_pos h, List.find?_map]
    rcases List.any_eq_true.mp h with ⟨p, hp, hpk⟩
    simp only [decide_eq_true_eq] at hpk
    have hpred : (fun q : String × α => decide (q.1 = k)) ∘
        (fun p : String × α => if p.1 = k then (k, v) else p) =
        fun p : String × α => decide (p.1 = k) := by
      funext q
      by_cases hq : q.1 = k
      · rw [Function.comp_apply, if_pos hq]
        simp [hq]
      · rw [Function.comp_apply, if_neg hq]
    rw [hpred]
    have hex : ∃ q, l.find? (fun p : String × α => decide (p.1 = k)) = some q := by
      cases hf : l.find? (fun p : String × α => decide (p.1 = k)) with
      | none =>
        rw [List.find?_eq_none] at hf
        exact absurd (by simp [hpk] : (fun p : String × α => decide (p.1 = k)) p = true)
          (hf p hp)
      | some q => exact ⟨q, rfl⟩
    rcases hex with ⟨q, hq⟩
    have hqk : q.1 = k := by simpa using List.find?_some hq
    rw [hq]
    simp [hqk]
  · rw [if_neg h, List.find?_append]
    have hnone : l.find? (fun p : String × α => decide (p.1 = k)) = none := by
      rw [List.find?_eq_none]
      intro x hx
      simp only [decide_eq_true_eq]
      intro hxk
      exact h (List.any_eq_true.mpr ⟨x, hx, by simp [hxk]⟩)
    rw [hnone]
    simp

theorem MapList.get?_set_ne {l : List (String × α)} {k k' : String} {v : α}
    (hne : k' ≠ k) : MapList.get? (MapList.set l k v) k' = MapList.get? l k' := by
  unfold MapList.get? MapList.set
  by_cases h : l.any (fun p => p.1 = k)
  · rw [if_pos h, List.find?_map]
    have hpred : (fun q : String × α => decide (q.1 = k')) ∘
        (fun p : String × α => if p.1 = k then (k, v) else p) =
        fun p : String × α => decide (p.1 = k') := by
      funext q
      by_cases hq : q.1 = k
      · rw [Function.comp_apply, if_pos hq]
        simp [hq]
      · rw [Function.comp_apply, if_neg hq]
    rw [hpred]
    cases hf : l.find? (fun p : String × α => decide (p.1 = k')) with
    | none => simp
    | some q =>
      have hqk : q.1 = k' := by simpa using List.find?_some hf
      have hqk2 : ¬ (q.1 = k) := fun hc => hne (hqk ▸ hc ▸ rfl : k' = k)
      simp [Option.map_map, if_neg hqk2]
  · rw [if_neg h, List.find?_append]
    have hlast : List.find? (fun p : String × α => decide (p.1 = k')) [(k, v)] = none := by
      simp [List.find?, Ne.symm hne]
    rw [hlast]
    cases l.find? (fun p : String × α => decide (p.1 = k')) <;> simp

theorem MapList.keys_nodup_set {l : List (String × α)} {k : String} {v : α}
    (h : (l.map Prod.fst).Nodup) : ((MapList.set l k v).map Prod.fst).Nodup := by
  unfold MapList.set
  by_cases hany : l.any (fun p => p.1 = k)
  · rw [if_pos hany]
    have heq : (l.map (fun p : String × α => if p.1 = k then (k, v) else p)).map Prod.fst
        = l.map Prod.fst := by
      rw [List.map_map]
      apply List.map_congr_left
      intro p _
      by_cases hp : p.1 = k
      · rw [Function.comp_apply, if_pos hp]
        simp [hp]
      · rw [Function.comp_apply, if_neg hp]
    rw [heq]
    exact h
  · rw [if_neg hany, List.map_append]
    have hk : k ∉ l.map Prod.fst := by
      intro hc
      rcases List.mem_map.mp hc with ⟨p, hp, hpk⟩
      exact hany (List.any_eq_true.mpr ⟨p, hp, by simp [hpk]⟩)
    simp only [List.map_cons, List.map_nil]
    exact List.Nodup.append h (List.nodup_singleton k) (by
      intro a ha hb
      simp at hb
      subst hb
      exact hk ha)

theorem MapList.get?_of_mem_of_nodup {l : List (String × α)} {k : String} {v : α}
    (hnd : (l.map Prod.fst).Nodup) (hmem : (k, v) ∈ l) :
    MapList.get? l k = some v := by
  induction l with
  | nil => cases hmem
  | cons p rest ih =>
    rcases List.mem_cons.mp hmem with rfl | hmem2
    · unfold MapList.get?
      rw [List.find?_cons_of_pos _ (by simp)]
      rfl
    · have hpk : p.1 ≠ k := by
        intro hc
        have : p.1 ∈ rest.map Prod.fst :=
          List.mem_map.mpr ⟨(k, v), hmem2, by simp [hc]⟩
        exact (List.nodup_cons.mp (by simpa using hnd)).1 this
      unfold MapList.get? at ih ⊢
      rw [List.find?_cons_of_neg _ (by simpa using hpk)]
      exact ih (List.nodup_cons.mp (by simpa using hnd)).2 hmem2

theorem partitionByClassifier_foldl_snd (classify : String → Option α)
    (keys : List String) :
    ∀ acc : List (String × α) × List String,
      (keys.foldl
        (fun acc k =>
          match classify k with
          | some v => (MapList.set acc.1 k v, acc.2)
          | none => (acc.1, acc.2 ++ [k]))
        acc).2
      = acc.2 ++ keys.filter (fun k => (classify k).isNone) := by
  induction keys with
  | nil => intro acc; simp
  | cons k rest ih =>
    intro acc
    cases hk : classify k with
    | some v => simp [List.foldl_cons, hk, ih, List.filter_cons]
    | none => simp [List.foldl_cons, hk, ih, List.filter_cons]

theorem partitionByClassifier_snd (classify : String → Option α) (keys : List String) :
    (partitionByClassifier classify keys).2
      = keys.filter (fun k => (classify k).isNone) := by
  unfold partitionByClassifier
  simpa using partitionByClassifier_foldl_snd classify keys ([], [])

theorem partitionByClassifier_mem_snd (classify : String → Option α)
    {keys : List String} {k : String} :
    k ∈ (partitionByClassifier classify keys).2 ↔ k ∈ keys ∧ classify k = none := by
  rw [partitionByClassifier_snd, List.mem_filter]
  simp [Option.isNone_iff_eq_none]

theorem partitionByClassifier_foldl_fst (classify : String → Option α)
    (keys : List String) :
    ∀ acc : List (String × α) × List String,
      (∀ y ∈ acc.1, classify y.1 = some y.2) →
      ∀ x : String × α,
        (x ∈ (keys.foldl
          (fun acc k =>
            match classify k with
            | some v => (MapList.set acc.1 k v, acc.2)
            | none => (acc.1, acc.2 ++ [k]))
          acc).1
        ↔ x ∈ acc.1 ∨ (x.1 ∈ keys ∧ classify x.1 = some x.2)) := by
  induction keys with
  | nil => intro acc _ x; simp
  | cons k rest ih =>
    intro acc hinv x
    cases hk : classify k with
    | some v =>
      have hinv2 : ∀ y ∈ (MapList.set acc.1 k v, acc.2).1, classify y.1 = some y.2 := by
        intro y hy
        rcases MapList.mem_set.mp hy with rfl | ⟨hy2, _⟩
        · exact hk
        · exact hinv y hy2
      rw [List.foldl_cons, hk]
      rw [ih (MapList.set acc.1 k v, acc.2) hinv2 x]
      constructor
      · rintro (hset | ⟨hmem, hcx⟩)
        · rcases MapList.mem_set.mp hset with rfl | ⟨hacc, _⟩
          · exact Or.inr ⟨List.mem_cons_self k rest, hk⟩
          · exact Or.inl hacc
        · exact Or.inr ⟨List.mem_cons_of_mem k hmem, hcx⟩
      · rintro (hacc | ⟨hmem, hcx⟩)
        · by_cases hx1 : x.1 = k
          · left
            have : x.2 = v := by
              have := hinv x hacc
              rw [hx1, hk] at this
              exact Option.some.inj this.symm
            apply MapList.mem_set.mpr
            left
            rw [← hx1, ← this]
          · left
            exact MapList.mem_set.mpr (Or.inr ⟨hacc, hx1⟩)
        · rcases List.mem_cons.mp hmem with hx1 | hx1
          · left
            apply MapList.mem_set.mpr
            left
            have : x.2 = v := by
              rw [hx1, hk] at hcx
              exact (Option.some.inj hcx).symm
            rw [← hx1, ← this]
          · exact Or.inr ⟨hx1, hcx⟩
    | none =>
      rw [List.foldl_cons, hk]
      rw [ih (acc.1, acc.2 ++ [k]) hinv x]
      constructor
      · rintro (hacc | ⟨hmem, hcx⟩)
        · exact Or.inl hacc
        · exact Or.inr ⟨List.mem_cons_of_mem k hmem, hcx⟩
      · rintro (hacc | ⟨hmem, hcx⟩)
        · exact Or.inl hacc
        · rcases List.mem_cons.mp hmem with hx1 | hx1
          · rw [hx1, hk] at hcx
            cases hcx
          · exact Or.inr ⟨hx1, hcx⟩

theorem partitionByClassifier_mem_fst (classify : String → Option α)
    {keys : List String} {x : String × α} :
    x ∈ (partitionByClassifier classify keys).1
      ↔ x.1 ∈ keys ∧ classify x.1 = some x.2 := by
  unfold partitionByClassifier
  rw [partitionByClassifier_foldl_fst classify keys ([], []) (by simp) x]
  simp

theorem freshRecord_eq_some_iff {now : Nat} {lookup : String → Option α}
    {stamp : α → Nat} {k : String} {r : α} :
    freshRecord now lookup stamp k = some r
      ↔ lookup k = some r ∧ isFresh now (stamp r) = true := by
  unfold freshRecord
  cases hl : lookup k with
  | none => simp
  | some r' =>
    dsimp only
    by_cases hf : isFresh now (stamp r') = true
    · rw [if_pos hf]
      constructor
      · rintro h
        cases h
        exact ⟨rfl, hf⟩
      · rintro ⟨h1, _⟩
        cases h1
        rfl
    · rw [if_neg hf]
      constructor
      · rintro ⟨⟩
      · rintro ⟨h1, h2⟩
        cases h1
        exact absurd h2 hf

theorem isFresh_eq_false_iff {now c : Nat} (hpos : 0 < c) :
    isFresh now c = false ↔ CACHE_TTL_MS ≤ now - c := by
  unfold isFresh
  rw [if_neg (Nat.pos_iff_ne_zero.mp hpos)]
  simp [Nat.not_lt]

theorem freshRecord_eq_none_iff {now : Nat} {lookup : String → Option α}
    {stamp : α → Nat} {k : String}
    (hpos : ∀ k r, lookup k = some r → 0 < stamp r) :
    freshRecord now lookup stamp k = none
      ↔ lookup k = none ∨ ∃ r, lookup k = some r ∧ CACHE_TTL_MS ≤ now - stamp r := by
  unfold freshRecord
  cases hl : lookup k with
  | none => simp
  | some r' =>
    dsimp only
    by_cases hf : isFresh now (stamp r') = true
    · rw [if_pos hf]
      simp only [reduceCtorEq, false_iff, not_or]
      refine ⟨by simp, ?_⟩
      rintro ⟨r, hr, httl⟩
      cases hr
      rw [(isFresh_eq_false_iff (hpos k r' hl)).mpr httl] at hf
      simp at hf
    · rw [if_neg hf]
      simp only [true_iff]
      refine Or.inr ⟨r', rfl, ?_⟩
      exact (isFresh_eq_false_iff (hpos k r' hl)).mp (Bool.eq_false_iff.mpr hf)

theorem freshness_partition_spec (now : Nat) (lookup : String → Option α)
    (stamp : α → Nat) (hpos : ∀ k r, lookup k = some r → 0 < stamp r) :
    FreshnessPartitionSpec now lookup stamp
      (partitionByClassifier (freshRecord now lookup stamp)) := by
  intro keys
  refine ⟨?_, ?_, ?_, ?_⟩
  · intro k hk
    rw [partitionByClassifier_mem_snd]
    constructor
    · rintro ⟨r, hr⟩ hc
      have h2 := ((partitionByClassifier_mem_fst _).mp hr).2
      dsimp only at h2
      rw [hc.2] at h2
      cases h2
    · intro hnot
      cases hc : freshRecord now lookup stamp k with
      | none => exact absurd ⟨hk, hc⟩ hnot
      | some r => exact ⟨r, (partitionByClassifier_mem_fst _).mpr ⟨hk, hc⟩⟩
  · intro k r hr
    have h := (partitionByClassifier_mem_fst _).mp hr
    dsimp only at h
    have h2 := freshRecord_eq_some_iff.mp h.2
    refine ⟨h.1, h2.1, ?_⟩
    have h3 := h2.2
    unfold isFresh at h3
    by_cases hz : stamp r = 0
    · rw [if_pos hz] at h3; cases h3
    · rw [if_neg hz] at h3; simpa using h3
  · intro k hk
    exact ((partitionByClassifier_mem_snd _).mp hk).1
  · intro k hk
    rw [partitionByClassifier_mem_snd]
    rw [freshRecord_eq_none_iff hpos]
    simp [hk]

/-- C1: for every input key list, each freshness-partition read
(`getFreshItems` over QIDs, `getFreshProperties` over PIDs,
`getFreshLabelCaches` over normalized labels) partitions the input keys:
every key lands in exactly one of the fresh map and the stale list, fresh
entries are exactly the present records aged strictly below the 24h TTL,
and a key is stale iff its record is absent or `now - cachedAt ≥
CACHE_TTL_MS`; in particular a record with `cachedAt` exactly `now -
CACHE_TTL_MS` is classified stale (exclusive boundary).  The positivity
hypotheses record that every stored timestamp is a `Date.now()` stamp
written by a save path (the JS guard `if (!cachedAt)` additionally treats a
zero/absent stamp as stale).  The partition reads are pure functions of the
clock, the store and the keys — their types admit no network client, which
is the no-network-call part of the claim. -/
theorem C1_freshness_partition_reads (now : Nat)
    (items : String → Option WikidataItem)
    (props : String → Option WikidataProperty)
    (labelCache : String → Option LabelCacheEntry)
    (hItems : ∀ k r, items k = some r → 0 < r.cachedAt)
    (hProps : ∀ k r, props k = some r → 0 < r.cachedAt)
    (hLabelCache : ∀ k r, labelCache k = some r → 0 < r.cachedAt) :
    FreshnessPartitionSpec now items (fun r => r.cachedAt) (getFreshItems now items) ∧
    FreshnessPartitionSpec now props (fun r => r.cachedAt) (getFreshProperties now props) ∧
    FreshnessPartitionSpec now labelCache (fun r => r.cachedAt) (getFreshLabelCaches now labelCache) ∧
    (∀ (keys : List String) (k : String) (r : WikidataItem),
      CACHE_TTL_MS ≤ now → items k = some r → r.cachedAt = now - CACHE_TTL_MS →
      k ∈ keys → k ∈ (getFreshItems now items keys).2) := by
  refine ⟨freshness_partition_spec now items _ hItems,
          freshness_partition_spec now props _ hProps,
          freshness_partition_spec now labelCache _ hLabelCache, ?_⟩
  intro keys k r hnow hk hstamp hmem
  have hspec := (freshness_partition_spec now items (fun r => r.cachedAt) hItems keys).2.2.2
  unfold getFreshItems
  rw [(hspec k hmem)]
  refine Or.inr ⟨r, hk, ?_⟩
  dsimp only
  rw [hstamp, Nat.sub_sub_self hnow]

/-- Witness for C1: a concrete two-key read where the record aged exactly to
the TTL bound is classified stale. -/
theorem C1_freshness_partition_reads_witness :
    "Q2" ∈ (getFreshItems (CACHE_TTL_MS + 1)
      (fun k => if k = "Q1" then some ⟨"Q1", "fresh", none, CACHE_TTL_MS + 1⟩
                else if k = "Q2" then some ⟨"Q2", "stale", none, 1⟩ else none)
      ["Q1", "Q2"]).2 := by
  have h := C1_freshness_partition_reads (CACHE_TTL_MS + 1)
    (fun k => if k = "Q1" then some ⟨"Q1", "fresh", none, CACHE_TTL_MS + 1⟩
              else if k = "Q2" then some ⟨"Q2", "stale", none, 1⟩ else none)
    (fun _ => none) (fun _ => none)
    (by
      intro k r hk
      dsimp only at hk
      split_ifs at hk
      all_goals cases hk
      all_goals decide)
    (by intro k r hk; cases hk)
    (by intro k r hk; cases hk)
  refine ((h.1 ["Q1", "Q2"]).2.2.2 "Q2" (by simp)).mpr ?_
  refine Or.inr ⟨⟨"Q2", "stale", none, 1⟩, by decide, ?_⟩
  dsimp only
  omega

/-- C2: `getFreshClaimsByQid` treats an entity's cached claims as fresh only
if at least one claim exists and every cached claim of the entity is fresh;
otherwise the entity is reported stale with an empty fresh list (never a mix
of old and new claims), and `getFreshClaimsByQids` applies this rule
independently per entity of the input list. -/
theorem C2_claims_atomic_freshness (now : Nat) (claimsStore : List Claim) :
    (∀ qid : String,
      ((getFreshClaimsByQid now claimsStore qid).2 = false ↔
        getClaimsByQid claimsStore qid ≠ [] ∧
          ∀ c ∈ getClaimsByQid claimsStore qid, isFresh now c.cachedAt = true) ∧
      ((getFreshClaimsByQid now claimsStore qid).2 = true →
        (getFreshClaimsByQid now claimsStore qid).1 = []) ∧
      ((getFreshClaimsByQid now claimsStore qid).2 = false →
        (getFreshClaimsByQid now claimsStore qid).1 = getClaimsByQid claimsStore qid)) ∧
    (∀ (qids : List String) (qid : String), qid ∈ qids →
      ((qid ∈ (getFreshClaimsByQids now claimsStore qids).2 ↔
         (getFreshClaimsByQid now claimsStore qid).2 = true) ∧
       (∀ l, ((qid, l) ∈ (getFreshClaimsByQids now claimsStore qids).1 ↔
         ((getFreshClaimsByQid now claimsStore qid).2 = false ∧
           l = (getFreshClaimsByQid now claimsStore qid).1))))) := by
  constructor
  · intro qid
    by_cases hs : ((getClaimsByQid claimsStore qid).isEmpty
        || (getClaimsByQid claimsStore qid).any (fun c => !isFresh now c.cachedAt)) = true
    · have heq : getFreshClaimsByQid now claimsStore qid = ([], true) := by
        unfold getFreshClaimsByQid
        rw [if_pos hs]
      rw [heq]
      refine ⟨?_, fun _ => rfl, fun hc => by cases hc⟩
      simp only [Bool.true_eq_false, false_iff, not_and]
      intro hne hall
      rcases Bool.or_eq_true_iff.mp hs with hemp | hany
      · exact hne (List.isEmpty_iff.mp hemp)
      · rcases List.any_eq_true.mp hany with ⟨c, hc, hcf⟩
        rw [hall c hc] at hcf
        cases hcf
    · have heq : getFreshClaimsByQid now claimsStore qid
          = (getClaimsByQid claimsStore qid, false) := by
        unfold getFreshClaimsByQid
        rw [if_neg hs]
      rw [heq]
      refine ⟨?_, ?_, ?_⟩
      · simp only [true_iff]
        rw [Bool.or_eq_true_iff] at hs
        push_neg at hs
        refine ⟨fun hc => hs.1 (by rw [hc]; rfl), ?_⟩
        intro c hc
        by_cases hf : isFresh now c.cachedAt = true
        · exact hf
        · exact absurd (List.any_eq_true.mpr ⟨c, hc, by simp [Bool.eq_false_iff.mpr hf]⟩) hs.2
      · intro hc; simp at hc
      · intro _; rfl
  · intro qids qid hmem
    constructor
    · rw [show getFreshClaimsByQids now claimsStore qids
          = partitionByClassifier
              (fun qid =>
                let result := getFreshClaimsByQid now claimsStore qid
                if result.2 then none else some result.1) qids from rfl]
      rw [partitionByClassifier_mem_snd]
      cases hb : (getFreshClaimsByQid now claimsStore qid).2 with
      | true => simp [hmem, hb]
      | false => simp [hmem, hb]
    · intro l
      rw [show getFreshClaimsByQids now claimsStore qids
          = partitionByClassifier
              (fun qid =>
                let result := getFreshClaimsByQid now claimsStore qid
                if result.2 then none else some result.1) qids from rfl]
      rw [partitionByClassifier_mem_fst]
      cases hb : (getFreshClaimsByQid now claimsStore qid).2 with
      | true => simp [hmem, hb]
      | false =>
        simp [hmem, hb, eq_comm]

/-- Witness for C2: one entity with a stale claim among fresh ones is
reported stale, while a fully fresh entity keeps its whole claim set. -/
theorem C2_claims_atomic_freshness_witness :
    "Q1" ∈ (getFreshClaimsByQids (CACHE_TTL_MS + 1)
      [⟨"Q1", "P1", [], CACHE_TTL_MS + 1⟩, ⟨"Q1", "P2", [], 1⟩,
       ⟨"Q2", "P3", [], CACHE_TTL_MS + 1⟩] ["Q1", "Q2"]).2 ∧
    ("Q2", [⟨"Q2", "P3", [], CACHE_TTL_MS + 1⟩]) ∈ (getFreshClaimsByQids (CACHE_TTL_MS + 1)
      [⟨"Q1", "P1", [], CACHE_TTL_MS + 1⟩, ⟨"Q1", "P2", [], 1⟩,
       ⟨"Q2", "P3", [], CACHE_TTL_MS + 1⟩] ["Q1", "Q2"]).1 := by
  have h := (C2_claims_atomic_freshness (CACHE_TTL_MS + 1)
    [⟨"Q1", "P1", [], CACHE_TTL_MS + 1⟩, ⟨"Q1", "P2", [], 1⟩,
     ⟨"Q2", "P3", [], CACHE_TTL_MS + 1⟩]).2 ["Q1", "Q2"]
  constructor
  · exact ((h "Q1" (by simp)).1).mpr (by decide)
  · exact ((h "Q2" (by simp)).2 _).mpr ⟨by decide, by decide⟩

theorem dropWhile_idem (p : α → Bool) (l : List α) :
    (l.dropWhile p).dropWhile p = l.dropWhile p := by
  induction l with
  | nil => rfl
  | cons a l ih =>
    by_cases ha : p a = true
    · rw [List.dropWhile_cons_of_pos ha]
      exact ih
    · rw [List.dropWhile_cons_of_neg (by simpa using ha)]
      rw [List.dropWhile_cons_of_neg (by simpa using ha)]

theorem dropWhile_eq_self_head {p : α → Bool} {a : α} {l : List α}
    (h : (a :: l).dropWhile p = a :: l) : p a = false := by
  by_cases ha : p a = true
  · rw [List.dropWhile_cons_of_pos ha] at h
    have hlen := (List.dropWhile_suffix p (l := l)).length_le
    rw [h] at hlen
    simp at hlen
  · simpa using ha

theorem dropWhile_eq_self_of_prefix {p : α → Bool} {t m : List α}
    (hpre : t <+: m) (hm : m.dropWhile p = m) : t.dropWhile p = t := by
  cases t with
  | nil => rfl
  | cons b t' =>
    cases m with
    | nil => cases hpre with | intro s hs => cases hs
    | cons x m' =>
      have hb : b = x := by
        cases hpre with
        | intro s hs =>
          have := congrArg (fun l => l.head?) hs
          simpa using this
      subst hb
      have hpb : p b = false := dropWhile_eq_self_head hm
      rw [List.dropWhile_cons_of_neg (by simp [hpb])]

theorem jsTrim_idem (cs : List Char) : jsTrim (jsTrim cs) = jsTrim cs := by
  unfold jsTrim
  set m := cs.dropWhile jsWhitespace with hm
  set t := (m.reverse.dropWhile jsWhitespace).reverse with ht
  have hmself : m.dropWhile jsWhitespace = m := by
    rw [hm]
    exact dropWhile_idem _ _
  have htpre : t <+: m := by
    apply List.reverse_suffix.mp
    rw [ht, List.reverse_reverse]
    exact List.dropWhile_suffix _
  have htself : t.dropWhile jsWhitespace = t :=
    dropWhile_eq_self_of_prefix htpre hmself
  rw [htself, ht, List.reverse_reverse, dropWhile_idem]

/-- C4 refuted at a concrete input: stripping one ordinal prefix can expose a
second one, so `normalize(normalize(x))` can differ from `normalize(x)`. -/
theorem C4_normalize_idempotent_counterexample :
    normalizeLabel (normalizeLabel "1. 2. Paris") ≠ normalizeLabel "1. 2. Paris" := by
  decide

/-- C4 (amended): the label normalization is not idempotent on every string —
stripping the ordinal prefix (or the trailing footnote glyph) once can expose
another one, as the counterexample `"1. 2. Paris"` shows.  It is idempotent
exactly on the inputs whose normalized form is not subject to further
stripping: whenever the ordinal-prefix strip and the dagger strip leave
`normalize(x)` unchanged, `normalize(normalize(x)) = normalize(x)` (the
final trim is always idempotent). -/
theorem C4_normalize_idempotent_on_stable (x : String)
    (h1 : stripOrdinal (normalizeLabel x).data = (normalizeLabel x).data)
    (h2 : stripDagger (normalizeLabel x).data = (normalizeLabel x).data) :
    normalizeLabel (normalizeLabel x) = normalizeLabel x := by
  have hz : (normalizeLabel x).data = jsTrim (stripDagger (stripOrdinal x.data)) := rfl
  show (⟨jsTrim (stripDagger (stripOrdinal (normalizeLabel x).data))⟩ : String)
      = normalizeLabel x
  rw [h1, h2, hz, jsTrim_idem]
  rfl

/-- Witness for C4 (amended): `"12. Paris‡"` normalizes to `"Paris"`, which
is stable, and re-normalizing it is the identity. -/
theorem C4_normalize_idempotent_on_stable_witness :
    stripOrdinal (normalizeLabel "12. Paris‡").data = (normalizeLabel "12. Paris‡").data ∧
    stripDagger (normalizeLabel "12. Paris‡").data = (normalizeLabel "12. Paris‡").data ∧
    normalizeLabel (normalizeLabel "12. Paris‡") = normalizeLabel "12. Paris‡" :=
  ⟨by decide, by decide,
    C4_normalize_idempotent_on_stable "12. Paris‡" (by decide) (by decide)⟩

theorem takeWhile_append_cons {p : α → Bool} {l : List α} {x : α} {r : List α}
    (hl : ∀ c ∈ l, p c = true) (hx : p x = false) :
    (l ++ x :: r).takeWhile p = l := by
  induction l with
  | nil => simp [List.takeWhile_cons, hx]
  | cons a l ih =>
    rw [List.cons_append, List.takeWhile_cons_of_pos (hl a (List.mem_cons_self a l))]
    rw [ih (fun c hc => hl c (List.mem_cons_of_mem a hc))]

theorem dropWhile_append_cons {p : α → Bool} {l : List α} {x : α} {r : List α}
    (hl : ∀ c ∈ l, p c = true) (hx : p x = false) :
    (l ++ x :: r).dropWhile p = x :: r := by
  induction l with
  | nil => simp [List.dropWhile_cons, hx]
  | cons a l ih =>
    rw [List.cons_append, List.dropWhile_cons_of_pos (hl a (List.mem_cons_self a l))]
    exact ih (fun c hc => hl c (List.mem_cons_of_mem a hc))

theorem formatTimeValue_eq (sign y0 : Char) (ys : List Char) (m1 m2 d1 d2 : Char)
    (tail : List Char) (prec : Nat)
    (hsign : sign = '+' ∨ sign = '-')
    (hy : ∀ c ∈ y0 :: ys, c.isDigit = true)
    (hm1 : m1.isDigit = true) (hm2 : m2.isDigit = true)
    (hd1 : d1.isDigit = true) (hd2 : d2.isDigit = true) :
    formatTimeValue ⟨sign :: ((y0 :: ys) ++ '-' :: m1 :: m2 :: '-' :: d1 :: d2 :: tail)⟩ prec
      = (let displayYear :=
           if sign = '-' then toString (digitsToNat (y0 :: ys)) ++ " BCE"
           else toString (digitsToNat (y0 :: ys))
         match prec with
         | 9 => displayYear
         | 10 => getMonthName (digitsToNat [m1, m2]) ++ " " ++ displayYear
         | _ => toString (digitsToNat [d1, d2]) ++ " " ++
             getMonthName (digitsToNat [m1, m2]) ++ " " ++ displayYear) := by
  have hdash : ('-' : Char).isDigit = false := by decide
  have htake : ((y0 :: ys) ++ '-' :: m1 :: m2 :: '-' :: d1 :: d2 :: tail).takeWhile Char.isDigit
      = y0 :: ys := takeWhile_append_cons hy hdash
  have hdrop : ((y0 :: ys) ++ '-' :: m1 :: m2 :: '-' :: d1 :: d2 :: tail).dropWhile Char.isDigit
      = '-' :: m1 :: m2 :: '-' :: d1 :: d2 :: tail := dropWhile_append_cons hy hdash
  unfold formatTimeValue
  have hdata : ∀ l : List Char, (String.mk l).data = l := fun _ => rfl
  rw [hdata]
  split
  next heq => exact absurd heq (by simp)
  next sign1 rest heq =>
    obtain ⟨h1, h2⟩ := List.cons.inj heq
    subst h1
    subst h2
    rw [if_pos hsign, htake, hdrop]
    rw [if_neg (by simp)]
    rw [formatMatchedTime]
    rw [hm1, hm2, hd1, hd2]
    rfl

/-- C8: `formatTimeValue` formats a Wikidata time value by precision —
precision 9 year only, precision 10 month name plus year, precision 11 day,
spelled-out month name and year — with a negative year rendered as
`"N BCE"`; in particular `+1969-07-20T00:00:00Z` yields `"20 July 1969"` at
precision 11 and `"1969"` at precision 9, and `-0044-03-15T00:00:00Z`
yields `"44 BCE"` at precision 9. -/
theorem C8_format_time_by_precision (sign y0 : Char) (ys : List Char)
    (m1 m2 d1 d2 : Char) (tail : List Char)
    (hsign : sign = '+' ∨ sign = '-')
    (hy : ∀ c ∈ y0 :: ys, c.isDigit = true)
    (hm1 : m1.isDigit = true) (hm2 : m2.isDigit = true)
    (hd1 : d1.isDigit = true) (hd2 : d2.isDigit = true) :
    (formatTimeValue ⟨sign :: ((y0 :: ys) ++ '-' :: m1 :: m2 :: '-' :: d1 :: d2 :: tail)⟩ 9
      = (if sign = '-' then toString (digitsToNat (y0 :: ys)) ++ " BCE"
         else toString (digitsToNat (y0 :: ys)))) ∧
    (formatTimeValue ⟨sign :: ((y0 :: ys) ++ '-' :: m1 :: m2 :: '-' :: d1 :: d2 :: tail)⟩ 10
      = getMonthName (digitsToNat [m1, m2]) ++ " " ++
        (if sign = '-' then toString (digitsToNat (y0 :: ys)) ++ " BCE"
         else toString (digitsToNat (y0 :: ys)))) ∧
    (formatTimeValue ⟨sign :: ((y0 :: ys) ++ '-' :: m1 :: m2 :: '-' :: d1 :: d2 :: tail)⟩ 11
      = toString (digitsToNat [d1, d2]) ++ " " ++
        getMonthName (digitsToNat [m1, m2]) ++ " " ++
        (if sign = '-' then toString (digitsToNat (y0 :: ys)) ++ " BCE"
         else toString (digitsToNat (y0 :: ys)))) ∧
    formatTimeValue "+1969-07-20T00:00:00Z" 11 = "20 July 1969" ∧
    formatTimeValue "+1969-07-20T00:00:00Z" 9 = "1969" ∧
    formatTimeValue "-0044-03-15T00:00:00Z" 9 = "44 BCE" := by
  refine ⟨?_, ?_, ?_, by decide, by decide, by decide⟩
  · exact formatTimeValue_eq sign y0 ys m1 m2 d1 d2 tail 9 hsign hy hm1 hm2 hd1 hd2
  · exact formatTimeValue_eq sign y0 ys m1 m2 d1 d2 tail 10 hsign hy hm1 hm2 hd1 hd2
  · exact formatTimeValue_eq sign y0 ys m1 m2 d1 d2 tail 11 hsign hy hm1 hm2 hd1 hd2

/-- Witness for C8 at the moon-landing date: digits spelled out as explicit
characters. -/
theorem C8_format_time_by_precision_witness :
    formatTimeValue ⟨'+' :: (['1', '9', '6', '9'] ++ '-' :: '0' :: '7' :: '-' :: '2' :: '0' ::
      ['T', '0', '0', ':', '0', '0', ':', '0', '0', 'Z'])⟩ 11
      = "20 July 1969" := by
  have h := (C8_format_time_by_precision '+' '1' ['9', '6', '9'] '0' '7' '2' '0'
    ['T', '0', '0', ':', '0', '0', ':', '0', '0', 'Z']
    (Or.inl rfl) (by decide) (by decide) (by decide) (by decide) (by decide)).2.2.1
  rw [h]
  decide

/-- C10: a `wikibase-entityid` datavalue whose entity-type is not `item`
parses to `null`, so `parseClaims` omits the value entirely (a trailing such
snak contributes nothing, and an entity whose only value is such a reference
yields no claim at all); the `unknown` fallback arises only from datavalue
types outside the dispatch table. -/
theorem C10_entityid_non_item_dropped :
    (∀ (fq : String → String) (fc : Float → Float → String) (entityType id : String),
      entityType ≠ "item" →
      parseDataValue fq fc (.entityid entityType id) = none) ∧
    (∀ (fq : String → String) (fc : Float → Float → String)
        (dv : WikidataDataValue) (cv : ClaimValue),
      parseDataValue fq fc dv = some cv → cv.type = "unknown" →
      ∃ t s, dv = .otherValue t s) ∧
    (∀ (fq : String → String) (fc : Float → Float → String) (t s : String),
      parseDataValue fq fc (.otherValue t s) = some ⟨"unknown", s, none⟩) ∧
    (∀ (fq : String → String) (fc : Float → Float → String)
        (entityType id : String) (snaks : List WikidataClaim),
      entityType ≠ "item" →
      claimValuesOf fq fc (snaks ++ [⟨⟨"value", some (.entityid entityType id)⟩⟩])
        = claimValuesOf fq fc snaks) ∧
    (∀ (fq : String → String) (fc : Float → Float → String)
        (eid pid entityType id : String),
      entityType ≠ "item" →
      parseClaims fq fc
        ⟨eid, [], [], some [(pid, [⟨⟨"value", some (.entityid entityType id)⟩⟩])]⟩
        = []) := by
  have hnone : ∀ (fq : String → String) (fc : Float → Float → String)
      (entityType id : String), entityType ≠ "item" →
      parseDataValue fq fc (.entityid entityType id) = none := by
    intro fq fc et i he
    simp only [parseDataValue]
    rw [if_neg he]
  refine ⟨hnone, ?_, ?_, ?_, ?_⟩
  · intro fq fc dv cv hp ht
    cases dv with
    | entityid et i =>
      simp only [parseDataValue] at hp
      split at hp
      · cases hp; simp at ht
      · cases hp
    | stringValue s =>
      simp only [parseDataValue] at hp
      cases hp; simp at ht
    | timeValue t p =>
      simp only [parseDataValue] at hp
      cases hp; simp at ht
    | quantityValue a u =>
      simp only [parseDataValue] at hp
      cases hp; simp at ht
    | globeValue la lo =>
      simp only [parseDataValue] at hp
      cases hp; simp at ht
    | monolingualtext t l =>
      simp only [parseDataValue] at hp
      cases hp; simp at ht
    | otherValue t s => exact ⟨t, s, rfl⟩
  · intro fq fc t s
    rfl
  · intro fq fc et i snaks he
    unfold claimValuesOf
    rw [List.filterMap_append]
    simp [hnone fq fc et i he]
  · intro fq fc eid pid et i he
    unfold parseClaims claimValuesOf
    simp [hnone fq fc et i he]

/-- Witness for C10: a reference to the property entity `P2` is dropped, so
the enclosing property produces no claim. -/
theorem C10_entityid_non_item_dropped_witness :
    parseClaims (fun s => s) (fun _ _ => "")
      ⟨"Q1", [], [], some [("P1", [⟨⟨"value", some (.entityid "property" "P2")⟩⟩])]⟩
      = [] :=
  C10_entityid_non_item_dropped.2.2.2.2 (fun s => s) (fun _ _ => "")
    "Q1" "P1" "property" "P2" (by decide)

/-- C5 refuted on the code (code bug): `incrementPropertyUsage` does add
exactly one to the stored usage counter, but a TTL-expiry refresh through
`getCachedPropertyInfo` overwrites the stored record via `saveProperties` —
whose loop, despite its own `INSERT OR IGNORE` comment, is a plain upsert —
with the freshly fetched record carrying `usage: 0`; a stored count of 5
drops to 0 without any clear-all. -/
theorem C5_usage_reset_on_ttl_refresh :
    ((incrementPropertyUsage
        (fun k => if k = "P31" then some ⟨"P31", "instance of", "", 5, true, 1⟩ else none)
        "P31") "P31" = some ⟨"P31", "instance of", "", 6, true, 1⟩) ∧
    ((fun k => if k = "P31" then some (⟨"P31", "instance of", "", 5, true, 1⟩ : WikidataProperty)
        else none) "P31").map (fun r => r.usage) = some 5 ∧
    (((getCachedPropertyInfo (CACHE_TTL_MS + 2)
        (fun _ => .ok [("P31", ⟨"P31", [("en", "instance of")], [("en", "d")], none⟩)])
        "en"
        (fun k => if k = "P31" then some ⟨"P31", "instance of", "", 5, true, 1⟩ else none)
        ["P31"]).2.1 "P31").map (fun r => r.usage) = some 0) := by
  refine ⟨by decide, by decide, by decide⟩

theorem chunkFuel_flatten : ∀ (fuel : Nat) (l : List α) (s : Nat),
    l.length < fuel → (chunkFuel fuel l s).flatten = l := by
  intro fuel
  induction fuel with
  | zero => intro l s h; omega
  | succ f ih =>
    intro l s h
    cases l with
    | nil => rfl
    | cons a rest =>
      show ((a :: rest.take s) :: chunkFuel f (rest.drop s) s).flatten = a :: rest
      rw [List.flatten_cons]
      rw [ih (rest.drop s) s (by
        have := List.length_drop s rest
        simp at h
        omega)]
      rw [List.cons_append, List.take_append_drop]

theorem chunkFuel_length_le : ∀ (fuel : Nat) (l : List α) (s : Nat) (b : List α),
    b ∈ chunkFuel fuel l s → b.length ≤ s + 1 := by
  intro fuel
  induction fuel with
  | zero => intro l s b h; cases h
  | succ f ih =>
    intro l s b h
    cases l with
    | nil => cases h
    | cons a rest =>
      rcases List.mem_cons.mp h with rfl | h2
      · have := List.length_take_le s rest
        simp only [List.length_cons]
        omega
      · exact ih (rest.drop s) s b h2

theorem batchArray_flatten (l : List α) (size : Nat) (h : 0 < size) :
    (batchArray l size).flatten = l := by
  cases size with
  | zero => omega
  | succ s => exact chunkFuel_flatten (l.length + 1) l s (by omega)

theorem batchArray_subset {l : List α} {size : Nat} {b : List α} {x : α}
    (hb : b ∈ batchArray l size) (hx : x ∈ b) : x ∈ l := by
  cases size with
  | zero => cases hb
  | succ s =>
    have := batchArray_flatten l (s + 1) (by omega)
    rw [← this]
    exact List.mem_flatten.mpr ⟨b, hb, hx⟩

theorem batchArray_length_le {l : List α} {size : Nat} {b : List α}
    (hb : b ∈ batchArray l size) : b.length ≤ size := by
  cases size with
  | zero => cases hb
  | succ s => exact chunkFuel_length_le (l.length + 1) l s b hb

theorem runBatches_trace (handle : ρ → List String → ρ)
    (batches : List (List String)) (init : ρ) :
    (runBatches handle batches init).2 = batches := by
  suffices h : ∀ (bs : List (List String)) (acc : ρ × List (List String)),
      (bs.foldl (fun acc batch => (handle acc.1 batch, acc.2 ++ [batch])) acc).2
        = acc.2 ++ bs by
    simpa [runBatches] using h batches (init, [])
  intro bs
  induction bs with
  | nil => intro acc; simp
  | cons b rest ih => intro acc; simp [ih]

theorem runBatches_fst (handle : ρ → List String → ρ)
    (batches : List (List String)) (init : ρ) :
    (runBatches handle batches init).1 = batches.foldl handle init := by
  suffices h : ∀ (bs : List (List String)) (acc : ρ × List (List String)),
      (bs.foldl (fun acc batch => (handle acc.1 batch, acc.2 ++ [batch])) acc).1
        = bs.foldl handle acc.1 by
    simpa [runBatches] using h batches (init, [])
  intro bs
  induction bs with
  | nil => intro acc; simp
  | cons b rest ih => intro acc; simp [ih]

/-- C9: `getEntityData` and `queryEntitiesByLabel` split their inputs into
sequentially issued batches of at most `BATCH_SIZE = 50` IDs and
`SPARQL_BATCH_SIZE = 100` (normalized) labels respectively, covering the
whole input with every batch issued regardless of failures (the request
trace does not depend on the batch outcomes), and a failed batch is
indistinguishable from one that returned zero results — so no batch
failure aborts the remaining batches, results accumulate into a single
map, and the total functions return plain maps: no exception reaches the
caller. -/
theorem C9_batching_and_partial_failure :
    (∀ (qids : List String) (api : EntityApi) (lang : String),
      (getEntityData api lang qids).2 = batchArray qids BATCH_SIZE ∧
      (batchArray qids BATCH_SIZE).flatten = qids ∧
      (∀ b ∈ batchArray qids BATCH_SIZE, b.length ≤ BATCH_SIZE)) ∧
    (∀ (api : EntityApi) (lang : String) (qids : List String) (batch : List String),
      api batch = .error () →
      getEntityData api lang qids
        = getEntityData (fun b => if b = batch then .ok [] else api b) lang qids) ∧
    (∀ (labels : List String) (api : SparqlApi),
      (queryEntitiesByLabel api labels).2
        = batchArray (labels.map normalizeLabel) SPARQL_BATCH_SIZE ∧
      (batchArray (labels.map normalizeLabel) SPARQL_BATCH_SIZE).flatten
        = labels.map normalizeLabel ∧
      (∀ b ∈ batchArray (labels.map normalizeLabel) SPARQL_BATCH_SIZE,
        b.length ≤ SPARQL_BATCH_SIZE)) ∧
    (∀ (api : SparqlApi) (labels : List String) (batch : List String),
      api batch = .error () →
      queryEntitiesByLabel api labels
        = queryEntitiesByLabel (fun b => if b = batch then .ok [] else api b) labels) := by
  refine ⟨?_, ?_, ?_, ?_⟩
  · intro qids api lang
    exact ⟨runBatches_trace _ _ _, batchArray_flatten qids BATCH_SIZE (by decide),
      fun b hb => batchArray_length_le hb⟩
  · intro api lang qids batch herr
    unfold getEntityData
    have hfun : (fun (results : List (String × WikidataItem)) (b : List String) =>
        match api b with
        | .error _ => results
        | .ok entities =>
            entities.foldl
              (fun rs (entry : String × WikidataEntity) =>
                if startsWithChar entry.1 'Q' then
                  MapList.set rs entry.1 (mkItemFromEntity lang entry.1 entry.2)
                else rs)
              results)
        = (fun (results : List (String × WikidataItem)) (b : List String) =>
        match (if b = batch then .ok [] else api b : Except Unit (List (String × WikidataEntity))) with
        | .error _ => results
        | .ok entities =>
            entities.foldl
              (fun rs (entry : String × WikidataEntity) =>
                if startsWithChar entry.1 'Q' then
                  MapList.set rs entry.1 (mkItemFromEntity lang entry.1 entry.2)
                else rs)
              results) := by
      funext results b
      by_cases hb : b = batch
      · subst hb
        rw [herr, if_pos rfl]
        rfl
      · rw [if_neg hb]
    rw [hfun]
  · intro labels api
    exact ⟨runBatches_trace _ _ _,
      batchArray_flatten (labels.map normalizeLabel) SPARQL_BATCH_SIZE (by decide),
      fun b hb => batchArray_length_le hb⟩
  · intro api labels batch herr
    unfold queryEntitiesByLabel
    have hfun : (fun (results : List (String × List (String × LabelMatch))) (b : List String) =>
        match api b with
        | .error _ => results
        | .ok bindings => bindings.foldl (addBinding b) results)
        = (fun (results : List (String × List (String × LabelMatch))) (b : List String) =>
        match (if b = batch then .ok [] else api b : Except Unit (List SparqlBinding)) with
        | .error _ => results
        | .ok bindings => bindings.foldl (addBinding b) results) := by
      funext results b
      by_cases hb : b = batch
      · subst hb
        rw [herr, if_pos rfl]
        rfl
      · rw [if_neg hb]
    rw [hfun]

/-- Witness for C9: a three-element input is issued as a single batch of
three, and an everywhere-failing client yields the empty map with the batch
still issued. -/
theorem C9_batching_and_partial_failure_witness :
    (getEntityData (fun _ => .error ()) "en" ["Q1", "Q2", "Q3"]).2
      = [["Q1", "Q2", "Q3"]] ∧
    (getEntityData (fun _ => .error ()) "en" ["Q1", "Q2", "Q3"]).1
      = (getEntityData (fun b => if b = ["Q1", "Q2", "Q3"] then .ok [] else .error ())
          "en" ["Q1", "Q2", "Q3"]).1 := by
  constructor
  · rw [(C9_batching_and_partial_failure.1 ["Q1", "Q2", "Q3"] (fun _ => .error ()) "en").1]
    decide
  · rw [C9_batching_and_partial_failure.2.1 (fun _ => .error ()) "en" ["Q1", "Q2", "Q3"]
      ["Q1", "Q2", "Q3"] rfl]

/-- C3: when every input key is fresh in the cache (the stale partition is
empty), `getCachedEntityData`, `getCachedPropertyInfo` and
`getCachedEntitiesByLabel` answer entirely from the cache — the result is
the fresh partition (for labels, its converted form), the store is
unchanged, and no batch request is issued; and every batch request any of
them ever issues carries only stale keys (for labels, the re-normalized
forms of stale cache keys). -/
theorem C3_fresh_cache_no_fetch :
    (∀ (now : Nat) (api : EntityApi) (lang : String)
        (items : String → Option WikidataItem) (qids : List String),
      ((getFreshItems now items qids).2 = [] →
        (getCachedEntityData now api lang items qids).1 = (getFreshItems now items qids).1 ∧
        (getCachedEntityData now api lang items qids).2.1 = items ∧
        (getCachedEntityData now api lang items qids).2.2 = []) ∧
      (∀ batch ∈ (getCachedEntityData now api lang items qids).2.2,
        ∀ k ∈ batch, k ∈ (getFreshItems now items qids).2)) ∧
    (∀ (now : Nat) (api : EntityApi) (lang : String)
        (props : String → Option WikidataProperty) (pids : List String),
      ((getFreshProperties now props pids).2 = [] →
        (getCachedPropertyInfo now api lang props pids).1 = (getFreshProperties now props pids).1 ∧
        (getCachedPropertyInfo now api lang props pids).2.1 = props ∧
        (getCachedPropertyInfo now api lang props pids).2.2 = []) ∧
      (∀ batch ∈ (getCachedPropertyInfo now api lang props pids).2.2,
        ∀ k ∈ batch, k ∈ (getFreshProperties now props pids).2)) ∧
    (∀ (now : Nat) (api : SparqlApi)
        (labelCache : String → Option LabelCacheEntry) (labels : List String),
      ((getFreshLabelCaches now labelCache (labels.map normalizeLabel)).2 = [] →
        (getCachedEntitiesByLabel now api labelCache labels).1
          = (getFreshLabelCaches now labelCache (labels.map normalizeLabel)).1.foldl
              (fun rs e => MapList.set rs e.1 (labelEntryToMatches e.2)) [] ∧
        (getCachedEntitiesByLabel now api labelCache labels).2.1 = labelCache ∧
        (getCachedEntitiesByLabel now api labelCache labels).2.2 = []) ∧
      (∀ batch ∈ (getCachedEntitiesByLabel now api labelCache labels).2.2,
        ∀ lab ∈ batch,
          ∃ stale ∈ (getFreshLabelCaches now labelCache (labels.map normalizeLabel)).2,
            lab = normalizeLabel stale)) := by
  refine ⟨?_, ?_, ?_⟩
  · intro now api lang items qids
    constructor
    · intro h
      by_cases hq : qids.isEmpty = true
      · obtain rfl : qids = [] := List.isEmpty_iff.mp hq
        exact ⟨rfl, rfl, rfl⟩
      · have hemp : (getFreshItems now items qids).2.isEmpty = true := by rw [h]; rfl
        simp only [getCachedEntityData]
        rw [if_neg hq, if_pos hemp]
        exact ⟨rfl, rfl, rfl⟩
    · intro batch hb k hk
      by_cases hq : qids.isEmpty = true
      · obtain rfl : qids = [] := List.isEmpty_iff.mp hq
        cases hb
      · by_cases hemp : (getFreshItems now items qids).2.isEmpty = true
        · simp only [getCachedEntityData] at hb
          rw [if_neg hq, if_pos hemp] at hb
          cases hb
        · simp only [getCachedEntityData] at hb
          rw [if_neg hq, if_neg hemp] at hb
          have htr : (getEntityData api lang (getFreshItems now items qids).2).2
              = batchArray (getFreshItems now items qids).2 BATCH_SIZE :=
            runBatches_trace _ _ _
          rw [htr] at hb
          exact batchArray_subset hb hk
  · intro now api lang props pids
    constructor
    · intro h
      by_cases hq : pids.isEmpty = true
      · obtain rfl : pids = [] := List.isEmpty_iff.mp hq
        exact ⟨rfl, rfl, rfl⟩
      · have hemp : (getFreshProperties now props pids).2.isEmpty = true := by rw [h]; rfl
        simp only [getCachedPropertyInfo]
        rw [if_neg hq, if_pos hemp]
        exact ⟨rfl, rfl, rfl⟩
    · intro batch hb k hk
      by_cases hq : pids.isEmpty = true
      · obtain rfl : pids = [] := List.isEmpty_iff.mp hq
        cases hb
      · by_cases hemp : (getFreshProperties now props pids).2.isEmpty = true
        · simp only [getCachedPropertyInfo] at hb
          rw [if_neg hq, if_pos hemp] at hb
          cases hb
        · simp only [getCachedPropertyInfo] at hb
          rw [if_neg hq, if_neg hemp] at hb
          have htr : (getPropertyInfo api lang (getFreshProperties now props pids).2).2
              = batchArray (getFreshProperties now props pids).2 BATCH_SIZE :=
            runBatches_trace _ _ _
          rw [htr] at hb
          exact batchArray_subset hb hk
  · intro now api labelCache labels
    constructor
    · intro h
      by_cases hq : labels.isEmpty = true
      · obtain rfl : labels = [] := List.isEmpty_iff.mp hq
        exact ⟨rfl, rfl, rfl⟩
      · have hemp : (getFreshLabelCaches now labelCache (labels.map normalizeLabel)).2.isEmpty
            = true := by rw [h]; rfl
        simp only [getCachedEntitiesByLabel]
        rw [if_neg hq, if_pos hemp]
        exact ⟨rfl, rfl, rfl⟩
    · intro batch hb lab hl
      by_cases hq : labels.isEmpty = true
      · obtain rfl : labels = [] := List.isEmpty_iff.mp hq
        cases hb
      · by_cases hemp : (getFreshLabelCaches now labelCache (labels.map normalizeLabel)).2.isEmpty
            = true
        · simp only [getCachedEntitiesByLabel] at hb
          rw [if_neg hq, if_pos hemp] at hb
          cases hb
        · simp only [getCachedEntitiesByLabel] at hb
          rw [if_neg hq, if_neg hemp] at hb
          have htr : (queryEntitiesByLabel api
              (getFreshLabelCaches now labelCache (labels.map normalizeLabel)).2).2
              = batchArray
                  ((getFreshLabelCaches now labelCache (labels.map normalizeLabel)).2.map
                    normalizeLabel) SPARQL_BATCH_SIZE :=
            runBatches_trace _ _ _
          rw [htr] at hb
          have := batchArray_subset hb hl
          rcases List.mem_map.mp this with ⟨stale, hs, heq⟩
          exact ⟨stale, hs, heq.symm⟩

/-- Witness for C3: a single fresh QID is served from the cache without any
batch request even though the client always fails. -/
theorem C3_fresh_cache_no_fetch_witness :
    (getCachedEntityData (CACHE_TTL_MS + 1) (fun _ => .error ()) "en"
        (fun k => if k = "Q1" then some ⟨"Q1", "Paris", none, CACHE_TTL_MS + 1⟩ else none)
        ["Q1"]).1
      = (getFreshItems (CACHE_TTL_MS + 1)
          (fun k => if k = "Q1" then some ⟨"Q1", "Paris", none, CACHE_TTL_MS + 1⟩ else none)
          ["Q1"]).1 ∧
    (getCachedEntityData (CACHE_TTL_MS + 1) (fun _ => .error ()) "en"
        (fun k => if k = "Q1" then some ⟨"Q1", "Paris", none, CACHE_TTL_MS + 1⟩ else none)
        ["Q1"]).2.2 = [] := by
  have h := (C3_fresh_cache_no_fetch.1 (CACHE_TTL_MS + 1) (fun _ => .error ()) "en"
    (fun k => if k = "Q1" then some ⟨"Q1", "Paris", none, CACHE_TTL_MS + 1⟩ else none)
    ["Q1"]).1 (by decide)
  exact ⟨h.1, h.2.2⟩

theorem addTypes_mem : ∀ (types acc : List String) (t : String),
    t ∈ addTypes acc types ↔ t ∈ acc ∨ (t ≠ "" ∧ t ∈ types) := by
  intro types
  induction types with
  | nil => intro acc t; simp [addTypes]
  | cons ty rest ih =>
    intro acc t
    show t ∈ addTypes (if ty ≠ "" ∧ ty ∉ acc then acc ++ [ty] else acc) rest ↔ _
    rw [ih]
    by_cases hg : ty ≠ "" ∧ ty ∉ acc
    · rw [if_pos hg]
      simp only [List.mem_append, List.mem_cons, List.not_mem_nil, or_false]
      constructor
      · rintro ((h | rfl) | ⟨hne, hr⟩)
        · exact Or.inl h
        · exact Or.inr ⟨hg.1, Or.inl rfl⟩
        · exact Or.inr ⟨hne, Or.inr hr⟩
      · rintro (h | ⟨hne, (rfl | hr)⟩)
        · exact Or.inl (Or.inl h)
        · exact Or.inl (Or.inr rfl)
        · exact Or.inr ⟨hne, hr⟩
    · rw [if_neg hg]
      push_neg at hg
      simp only [List.mem_cons]
      constructor
      · rintro (h | ⟨hne, hr⟩)
        · exact Or.inl h
        · exact Or.inr ⟨hne, Or.inr hr⟩
      · rintro (h | ⟨hne, (rfl | hr)⟩)
        · exact Or.inl h
        · exact Or.inl (hg hne)
        · exact Or.inr ⟨hne, hr⟩

theorem addTypes_nodup : ∀ (types acc : List String), acc.Nodup →
    (addTypes acc types).Nodup := by
  intro types
  induction types with
  | nil => intro acc h; exact h
  | cons ty rest ih =>
    intro acc h
    show (addTypes (if ty ≠ "" ∧ ty ∉ acc then acc ++ [ty] else acc) rest).Nodup
    by_cases hg : ty ≠ "" ∧ ty ∉ acc
    · rw [if_pos hg]
      refine ih _ (List.Nodup.append h (List.nodup_singleton ty) ?_)
      intro a ha hb
      simp at hb
      subst hb
      exact hg.2 ha
    · rw [if_neg hg]
      exact ih _ h

theorem typesForRow_mem (qidMap : List (String × LabelMatch)) (t : String) :
    t ∈ typesForRow qidMap ↔ t ≠ "" ∧ ∃ e ∈ qidMap, t ∈ e.2.instanceOf := by
  suffices h : ∀ (l : List (String × LabelMatch)) (acc : List String) (t : String),
      (t ∈ l.foldl (fun acc e => addTypes acc e.2.instanceOf) acc ↔
        t ∈ acc ∨ (t ≠ "" ∧ ∃ e ∈ l, t ∈ e.2.instanceOf)) by
    simpa [typesForRow] using h qidMap [] t
  intro l
  induction l with
  | nil => intro acc t; simp
  | cons e rest ih =>
    intro acc t
    rw [List.foldl_cons, ih, addTypes_mem]
    constructor
    · rintro ((h | ⟨hne, hmem⟩) | ⟨hne, e2, he2, hm⟩)
      · exact Or.inl h
      · exact Or.inr ⟨hne, e, List.mem_cons_self e rest, hmem⟩
      · exact Or.inr ⟨hne, e2, List.mem_cons_of_mem e he2, hm⟩
    · rintro (h | ⟨hne, e2, he2, hm⟩)
      · exact Or.inl (Or.inl h)
      · rcases List.mem_cons.mp he2 with rfl | h2
        · exact Or.inl (Or.inr ⟨hne, hm⟩)
        · exact Or.inr ⟨hne, e2, h2, hm⟩

theorem typesForRow_nodup (qidMap : List (String × LabelMatch)) :
    (typesForRow qidMap).Nodup := by
  suffices h : ∀ (l : List (String × LabelMatch)) (acc : List String), acc.Nodup →
      (l.foldl (fun acc e => addTypes acc e.2.instanceOf) acc).Nodup by
    exact h qidMap [] List.nodup_nil
  intro l
  induction l with
  | nil => intro acc h; exact h
  | cons e rest ih =>
    intro acc h
    rw [List.foldl_cons]
    exact ih _ (addTypes_nodup _ _ h)

theorem foldl_bump_get : ∀ (types : List String), types.Nodup →
    ∀ (counts : List (String × Nat)) (t : String),
    MapList.get? (types.foldl MapList.bump counts) t
      = if t ∈ types then some ((MapList.get? counts t).getD 0 + 1)
        else MapList.get? counts t := by
  intro types
  induction types with
  | nil => intro _ counts t; simp
  | cons ty rest ih =>
    intro hnd counts t
    have hnd2 := List.nodup_cons.mp hnd
    rw [List.foldl_cons]
    by_cases ht : t = ty
    · subst ht
      rw [ih hnd2.2, if_neg hnd2.1, if_pos (List.mem_cons_self t rest)]
      show MapList.get? (MapList.set counts t _) t = _
      rw [MapList.get?_set_self]
    · rw [ih hnd2.2]
      have hget : MapList.get? (MapList.bump counts ty) t = MapList.get? counts t :=
        MapList.get?_set_ne ht
      rw [hget]
      by_cases hr : t ∈ rest
      · rw [if_pos hr, if_pos (List.mem_cons_of_mem ty hr)]
      · rw [if_neg hr, if_neg (by simp [ht, hr])]

theorem bumpFold_get (F : β → List String) :
    ∀ (l : List β), (∀ x ∈ l, (F x).Nodup) →
    ∀ (acc : List (String × Nat)) (t : String),
    MapList.get? (l.foldl (fun counts x => (F x).foldl MapList.bump counts) acc) t
      = optAdd (MapList.get? acc t) ((l.filter (fun x => t ∈ F x)).length) := by
  intro l
  induction l with
  | nil =>
    intro _ acc t
    cases h : MapList.get? acc t <;> simp [optAdd, h]
  | cons x rest ih =>
    intro hnd acc t
    rw [List.foldl_cons]
    rw [ih (fun y hy => hnd y (List.mem_cons_of_mem x hy))]
    rw [foldl_bump_get (F x) (hnd x (List.mem_cons_self x rest)) acc t]
    rw [List.filter_cons]
    by_cases hx : t ∈ F x
    · rw [if_pos hx, if_pos (by simpa using hx)]
      cases h : MapList.get? acc t <;>
        simp [optAdd, List.length_cons] <;> omega
    · rw [if_neg hx, if_neg (by simpa using hx)]

theorem bump_keys_nodup {counts : List (String × Nat)} (k : String)
    (h : (counts.map Prod.fst).Nodup) :
    ((MapList.bump counts k).map Prod.fst).Nodup :=
  MapList.keys_nodup_set h

theorem bumpFold_keys_nodup (F : β → List String) :
    ∀ (l : List β) (acc : List (String × Nat)), (acc.map Prod.fst).Nodup →
    ((l.foldl (fun counts x => (F x).foldl MapList.bump counts) acc).map Prod.fst).Nodup := by
  have hinner : ∀ (ts : List String) (counts : List (String × Nat)),
      (counts.map Prod.fst).Nodup → ((ts.foldl MapList.bump counts).map Prod.fst).Nodup := by
    intro ts
    induction ts with
    | nil => intro counts h; exact h
    | cons ty rest ih =>
      intro counts h
      rw [List.foldl_cons]
      exact ih _ (bump_keys_nodup ty h)
  intro l
  induction l with
  | nil => intro acc h; exact h
  | cons x rest ih =>
    intro acc h
    rw [List.foldl_cons]
    exact ih _ (hinner _ _ h)

theorem instanceOfCounts_get (m : List (String × List (String × LabelMatch))) (t : String) :
    MapList.get? (instanceOfCounts m) t = optAdd none (claimRowCount m t) := by
  unfold instanceOfCounts claimRowCount
  exact bumpFold_get (fun e => typesForRow e.2) m (fun x _ => typesForRow_nodup x.2) [] t

theorem instanceOfCounts_keys_nodup (m : List (String × List (String × LabelMatch))) :
    ((instanceOfCounts m).map Prod.fst).Nodup := by
  unfold instanceOfCounts
  exact bumpFold_keys_nodup (fun e => typesForRow e.2) m [] List.nodup_nil

theorem instanceOfCounts_val {m : List (String × List (String × LabelMatch))}
    {t : String} {c : Nat} (h : (t, c) ∈ instanceOfCounts m) :
    c = claimRowCount m t ∧ 0 < claimRowCount m t := by
  have hg := MapList.get?_of_mem_of_nodup (instanceOfCounts_keys_nodup m) h
  rw [instanceOfCounts_get] at hg
  rcases hn : claimRowCount m t with _ | n
  · rw [hn] at hg
    rw [show optAdd none 0 = none from rfl] at hg
    cases hg
  · rw [hn] at hg
    rw [show optAdd none (n + 1) = some (0 + (n + 1)) from rfl] at hg
    have hc := Option.some.inj hg
    refine ⟨by omega, by omega⟩

theorem instanceOfCounts_complete {m : List (String × List (String × LabelMatch))}
    {t : String} (h : 0 < claimRowCount m t) :
    (t, claimRowCount m t) ∈ instanceOfCounts m := by
  have hg := instanceOfCounts_get m t
  rcases hn : claimRowCount m t with _ | n
  · omega
  · rw [hn] at hg
    rw [show optAdd none (n + 1) = some (0 + (n + 1)) from rfl] at hg
    rw [show (0 + (n + 1)) = n + 1 from by omega] at hg
    exact MapList.get?_eq_some_mem hg

theorem instanceOfScores_mem {m : List (String × List (String × LabelMatch))}
    {t : String} {s : Nat} :
    (t, s) ∈ instanceOfScores m ↔ ∃ c, (t, c) ∈ instanceOfCounts m ∧
      s = (if 0 < m.length then jsRoundPct c m.length else 0) := by
  unfold instanceOfScores
  rw [List.mem_map]
  constructor
  · rintro ⟨⟨t2, c⟩, he, heq⟩
    obtain ⟨h1, h2⟩ := Prod.mk.injEq .. ▸ heq
    exact ⟨c, by rw [← h1]; exact he, h2.symm⟩
  · rintro ⟨c, hc, rfl⟩
    exact ⟨(t, c), hc, rfl⟩

theorem foldl_max_init_le : ∀ (l : List Nat) (a : Nat), a ≤ l.foldl max a := by
  intro l
  induction l with
  | nil => intro a; exact Nat.le_refl a
  | cons x rest ih =>
    intro a
    calc a ≤ max a x := Nat.le_max_left a x
    _ ≤ rest.foldl max (max a x) := ih (max a x)

theorem mem_le_foldl_max : ∀ (l : List Nat) (a x : Nat), x ∈ l → x ≤ l.foldl max a := by
  intro l
  induction l with
  | nil => intro a x h; cases h
  | cons y rest ih =>
    intro a x h
    rcases List.mem_cons.mp h with rfl | h2
    · calc x ≤ max a x := Nat.le_max_right a x
      _ ≤ rest.foldl max (max a x) := foldl_max_init_le rest (max a x)
    · exact ih (max a y) x h2

theorem score_le_maxScoreOf {scores : List (String × Nat)} {t : String} {s : Nat}
    (h : (t, s) ∈ scores) : s ≤ maxScoreOf scores := by
  unfold maxScoreOf
  exact mem_le_foldl_max _ 0 s (List.mem_map.mpr ⟨(t, s), h, rfl⟩)

theorem primaryInstanceTypes_mem (m : List (String × List (String × LabelMatch)))
    (t : String) :
    t ∈ primaryInstanceTypes m ↔
      ∃ s, (t, s) ∈ instanceOfScores m ∧ s = maxScoreOf (instanceOfScores m) := by
  unfold primaryInstanceTypes
  by_cases he : (instanceOfScores m).isEmpty = true
  · rw [if_pos he]
    obtain hnil := List.isEmpty_iff.mp he
    rw [hnil]
    simp
  · rw [if_neg he, List.mem_map]
    constructor
    · rintro ⟨⟨t2, s⟩, he2, heq⟩
      obtain ⟨hmem, hfil⟩ := List.mem_filter.mp he2
      subst heq
      exact ⟨s, hmem, by simpa using hfil⟩
    · rintro ⟨s, hs, hmax⟩
      exact ⟨(t, s), List.mem_filter.mpr ⟨hs, by simp [hmax]⟩, rfl⟩

/-- C6 refuted at a concrete input: the scoring loop divides by the total
number of entries of the label-to-candidates map (`labelToQidMap.size`),
which also counts labels whose cached query result is empty — not by the
number of rows that had at least one candidate, as the claim states.  With
one candidate row (type `T`) and one negative-cached empty row, the code
scores `T` at 50, while the claimed formula gives 100. -/
theorem C6_type_score_denominator_counterexample :
    instanceOfScores [("a", [("Q1", ⟨"Al", ["T"]⟩)]), ("b", [])] = [("T", 50)] ∧
    claimRowCount [("a", [("Q1", ⟨"Al", ["T"]⟩)]), ("b", [])] "T" = 1 ∧
    specCandidateRowCount [("a", [("Q1", ⟨"Al", ["T"]⟩)]), ("b", [])] = 1 ∧
    jsRoundPct 1 1 = 100 ∧ (50 : Nat) ≠ 100 := by
  refine ⟨by decide, by decide, by decide, by decide, by decide⟩

/-- C6 (amended): each instance-of type's score equals the number of map
entries (distinct normalized labels) whose candidate set contributes that
type, counted once per entry, converted to a rounded percentage over the
total number of entries of the label-to-candidates map — which can include
negative-cached labels with no candidate, not only rows with at least one
candidate; the primary types are exactly all types tied for the maximum
percentage.  The example rows `[{A,B}, {A}, {B}]` still score A = 67 and
B = 67, both primary. -/
theorem C6_type_scores (m : List (String × List (String × LabelMatch)))
    (hm : 0 < m.length) :
    (∀ t s, (t, s) ∈ instanceOfScores m →
      s = jsRoundPct (claimRowCount m t) m.length ∧ 0 < claimRowCount m t) ∧
    (∀ t, 0 < claimRowCount m t →
      (t, jsRoundPct (claimRowCount m t) m.length) ∈ instanceOfScores m) ∧
    (∀ t s, (t, s) ∈ instanceOfScores m → s ≤ maxScoreOf (instanceOfScores m)) ∧
    (∀ t, t ∈ primaryInstanceTypes m ↔
      ∃ s, (t, s) ∈ instanceOfScores m ∧ s = maxScoreOf (instanceOfScores m)) ∧
    (instanceOfScores
        [("r1", [("Q1", ⟨"l1", ["A", "B"]⟩)]), ("r2", [("Q2", ⟨"l2", ["A"]⟩)]),
         ("r3", [("Q3", ⟨"l3", ["B"]⟩)])]
      = [("A", 67), ("B", 67)] ∧
     primaryInstanceTypes
        [("r1", [("Q1", ⟨"l1", ["A", "B"]⟩)]), ("r2", [("Q2", ⟨"l2", ["A"]⟩)]),
         ("r3", [("Q3", ⟨"l3", ["B"]⟩)])]
      = ["A", "B"]) := by
  refine ⟨?_, ?_, ?_, primaryInstanceTypes_mem m, by decide, by decide⟩
  · intro t s h
    rcases instanceOfScores_mem.mp h with ⟨c, hc, rfl⟩
    have hv := instanceOfCounts_val hc
    rw [if_pos hm]
    exact ⟨by rw [hv.1], hv.2⟩
  · intro t h
    exact instanceOfScores_mem.mpr
      ⟨claimRowCount m t, instanceOfCounts_complete h, by rw [if_pos hm]⟩
  · intro t s h
    exact score_le_maxScoreOf h

/-- Witness for C6 (amended) on the three-row example. -/
theorem C6_type_scores_witness :
    ("A", 67) ∈ instanceOfScores
      [("r1", [("Q1", ⟨"l1", ["A", "B"]⟩)]), ("r2", [("Q2", ⟨"l2", ["A"]⟩)]),
       ("r3", [("Q3", ⟨"l3", ["B"]⟩)])] := by
  have h := (C6_type_scores
    [("r1", [("Q1", ⟨"l1", ["A", "B"]⟩)]), ("r2", [("Q2", ⟨"l2", ["A"]⟩)]),
     ("r3", [("Q3", ⟨"l3", ["B"]⟩)])] (by decide)).2.1 "A" (by decide)
  have heq : jsRoundPct (claimRowCount
      [("r1", [("Q1", ⟨"l1", ["A", "B"]⟩)]), ("r2", [("Q2", ⟨"l2", ["A"]⟩)]),
       ("r3", [("Q3", ⟨"l3", ["B"]⟩)])] "A")
      ([("r1", [("Q1", (⟨"l1", ["A", "B"]⟩ : LabelMatch))]), ("r2", [("Q2", ⟨"l2", ["A"]⟩)]),
       ("r3", [("Q3", ⟨"l3", ["B"]⟩)])].length) = 67 := by decide
  rw [heq] at h
  exact h

theorem foldl_congr_mem {f g : γ → β → γ} :
    ∀ (l : List β) (acc : γ), (∀ (a : γ) (x : β), x ∈ l → f a x = g a x) →
    l.foldl f acc = l.foldl g acc := by
  intro l
  induction l with
  | nil => intro acc _; rfl
  | cons x rest ih =>
    intro acc h
    rw [List.foldl_cons, List.foldl_cons, h acc x (List.mem_cons_self x rest)]
    exact ih _ (fun a y hy => h a y (List.mem_cons_of_mem x hy))

theorem seenBump_fold : ∀ (pids : List String) (seen : List String)
    (counts : List (String × Nat)), pids.Nodup → (∀ p ∈ pids, p ∉ seen) →
    pids.foldl seenBump (seen, counts)
      = (seen ++ pids, pids.foldl MapList.bump counts) := by
  intro pids
  induction pids with
  | nil => intro seen counts _ _; simp
  | cons p rest ih =>
    intro seen counts hnd hdis
    have hp : p ∉ seen := hdis p (List.mem_cons_self p rest)
    rw [List.foldl_cons, List.foldl_cons]
    rw [show seenBump (seen, counts) p = (seen ++ [p], MapList.bump counts p) from by
      unfold seenBump
      rw [if_neg hp]]
    rw [ih (seen ++ [p]) (MapList.bump counts p) (List.nodup_cons.mp hnd).2 ?_]
    · simp
    · intro q hq
      simp only [List.mem_append, List.mem_singleton]
      rintro (hqs | rfl)
      · exact hdis q (List.mem_cons_of_mem p hq) hqs
      · exact (List.nodup_cons.mp hnd).1 hq

theorem calculateCounts_get (claimsStore : List Claim) (qids : List String)
    (hclaims : ∀ q ∈ qids, ((getClaimsByQid claimsStore q).map (fun c => c.pid)).Nodup)
    (pid : String) :
    MapList.get? (propertyCountsOf claimsStore qids) pid
      = optAdd none (rowCoverage claimsStore qids pid) := by
  unfold propertyCountsOf
  have hstep : ∀ (counts : List (String × Nat)) (q : String), q ∈ qids →
      ((getClaimsByQid claimsStore q).foldl (fun st claim => seenBump st claim.pid)
        (([] : List String), counts)).2
      = ((getClaimsByQid claimsStore q).map (fun c => c.pid)).foldl MapList.bump counts := by
    intro counts q hq
    rw [show (getClaimsByQid claimsStore q).foldl (fun st claim => seenBump st claim.pid)
          (([] : List String), counts)
        = ((getClaimsByQid claimsStore q).map (fun c => c.pid)).foldl seenBump
          (([] : List String), counts) from by rw [List.foldl_map]]
    rw [seenBump_fold _ [] counts (hclaims q hq) (by simp)]
  rw [foldl_congr_mem qids [] hstep]
  exact bumpFold_get (fun q => (getClaimsByQid claimsStore q).map (fun c => c.pid))
    qids (fun q hq => hclaims q hq) [] pid

theorem calculateCounts_keys_nodup (claimsStore : List Claim) (qids : List String)
    (hclaims : ∀ q ∈ qids, ((getClaimsByQid claimsStore q).map (fun c => c.pid)).Nodup) :
    ((propertyCountsOf claimsStore qids).map Prod.fst).Nodup := by
  unfold propertyCountsOf
  have hstep : ∀ (counts : List (String × Nat)) (q : String), q ∈ qids →
      ((getClaimsByQid claimsStore q).foldl (fun st claim => seenBump st claim.pid)
        (([] : List String), counts)).2
      = ((getClaimsByQid claimsStore q).map (fun c => c.pid)).foldl MapList.bump counts := by
    intro counts q hq
    rw [show (getClaimsByQid claimsStore q).foldl (fun st claim => seenBump st claim.pid)
          (([] : List String), counts)
        = ((getClaimsByQid claimsStore q).map (fun c => c.pid)).foldl seenBump
          (([] : List String), counts) from by rw [List.foldl_map]]
    rw [seenBump_fold _ [] counts (hclaims q hq) (by simp)]
  rw [foldl_congr_mem qids [] hstep]
  exact bumpFold_keys_nodup (fun q => (getClaimsByQid claimsStore q).map (fun c => c.pid))
    qids [] List.nodup_nil

theorem foldl_stats_mem (props : String → Option WikidataProperty)
    (mk : String × Nat → WikidataProperty → AvailableProperty) :
    ∀ (l : List (String × Nat)) (acc : List AvailableProperty) (x : AvailableProperty),
    (x ∈ l.foldl
        (fun acc e =>
          match props e.1 with
          | some property => acc ++ [mk e property]
          | none => acc)
        acc
      ↔ x ∈ acc ∨ ∃ e ∈ l, ∃ property, props e.1 = some property ∧ x = mk e property) := by
  intro l
  induction l with
  | nil => intro acc x; simp
  | cons e rest ih =>
    intro acc x
    rw [List.foldl_cons]
    cases hp : props e.1 with
    | none =>
      rw [ih]
      constructor
      · rintro (h | ⟨e2, he2, property, hp2, hx⟩)
        · exact Or.inl h
        · exact Or.inr ⟨e2, List.mem_cons_of_mem e he2, property, hp2, hx⟩
      · rintro (h | ⟨e2, he2, property, hp2, hx⟩)
        · exact Or.inl h
        · rcases List.mem_cons.mp he2 with rfl | h2
          · rw [hp] at hp2; cases hp2
          · exact Or.inr ⟨e2, h2, property, hp2, hx⟩
    | some property =>
      rw [ih]
      constructor
      · rintro (h | ⟨e2, he2, property2, hp2, hx⟩)
        · rcases List.mem_append.mp h with h2 | h2
          · exact Or.inl h2
          · exact Or.inr ⟨e, List.mem_cons_self e rest, property,
              hp, by simpa using h2⟩
        · exact Or.inr ⟨e2, List.mem_cons_of_mem e he2, property2, hp2, hx⟩
      · rintro (h | ⟨e2, he2, property2, hp2, hx⟩)
        · exact Or.inl (List.mem_append.mpr (Or.inl h))
        · rcases List.mem_cons.mp he2 with rfl | h2
          · rw [hp] at hp2
            cases hp2
            exact Or.inl (List.mem_append.mpr (Or.inr (by simp [hx])))
          · exact Or.inr ⟨e2, h2, property2, hp2, hx⟩

theorem propertyCounts_val {claimsStore : List Claim} {qids : List String}
    (hclaims : ∀ q ∈ qids, ((getClaimsByQid claimsStore q).map (fun c => c.pid)).Nodup)
    {pid : String} {c : Nat} (h : (pid, c) ∈ propertyCountsOf claimsStore qids) :
    c = rowCoverage claimsStore qids pid ∧ 0 < rowCoverage claimsStore qids pid := by
  have hg := MapList.get?_of_mem_of_nodup (calculateCounts_keys_nodup claimsStore qids hclaims) h
  rw [calculateCounts_get claimsStore qids hclaims] at hg
  rcases hn : rowCoverage claimsStore qids pid with _ | n
  · rw [hn] at hg
    rw [show optAdd none 0 = none from rfl] at hg
    cases hg
  · rw [hn] at hg
    rw [show optAdd none (n + 1) = some (0 + (n + 1)) from rfl] at hg
    have hc := Option.some.inj hg
    exact ⟨by omega, by omega⟩

theorem propertyCounts_complete {claimsStore : List Claim} {qids : List String}
    (hclaims : ∀ q ∈ qids, ((getClaimsByQid claimsStore q).map (fun c => c.pid)).Nodup)
    {pid : String} (h : 0 < rowCoverage claimsStore qids pid) :
    (pid, rowCoverage claimsStore qids pid) ∈ propertyCountsOf claimsStore qids := by
  have hg := calculateCounts_get claimsStore qids hclaims pid
  rcases hn : rowCoverage claimsStore qids pid with _ | n
  · omega
  · rw [hn] at hg
    rw [show optAdd none (n + 1) = some (0 + (n + 1)) from rfl] at hg
    rw [show (0 + (n + 1)) = n + 1 from by omega] at hg
    exact MapList.get?_eq_some_mem hg

theorem availableProperties_mem {claimsStore : List Claim}
    {props : String → Option WikidataProperty} {qids : List String}
    {stat : AvailableProperty} :
    stat ∈ availablePropertiesOf claimsStore props qids ↔
      ∃ e ∈ propertyCountsOf claimsStore qids, ∃ property, props e.1 = some property ∧
        stat = mkAvailable qids.length e property := by
  unfold availablePropertiesOf
  rw [foldl_stats_mem props (mkAvailable qids.length)
    (propertyCountsOf claimsStore qids) [] stat]
  simp

unseal List.merge List.mergeSort in
/-- C7 refuted at a concrete input: the aggregator is applied to the raw
QID list of the matched rows, which is not deduplicated, so an entity
appearing twice is counted twice — property `P1` of the duplicated entity
`Q1` gets count 2 and percentage 67 (`2/3` occurrences), while the claimed
once-per-entity counting over the resolved entities gives 1 of 2 entities
= 50%. -/
theorem C7_duplicate_entity_counterexample :
    calculatePropertyStats [⟨"Q1", "P1", [], 1⟩]
      (fun k => if k = "P1" then some ⟨"P1", "prop", "", 0, true, 1⟩ else none)
      ["Q1", "Q1", "Q2"]
      = [⟨"P1", "prop", "", 2, 67, true, 0⟩] ∧
    jsRoundPct 1 2 = 50 ∧ (2 : Nat) ≠ 1 ∧ (67 : Nat) ≠ 50 := by
  refine ⟨by decide, by decide, by decide, by decide⟩

unseal List.merge List.mergeSort in
/-- C7 (amended): for every duplicate-free list of resolved entity IDs (the
spec's stated input contract; the caller may pass duplicates, which are then
counted per occurrence), the aggregator counts each distinct property at
most once per entity, computes the percentage as
`round(100 * coverage / total)`, carries the stored global usage and
visibility, and sorts by global usage descending with row-coverage
percentage descending as the tiebreak; in particular `P1` with usage 10 and
coverage 40% ranks above `P2` with usage 5 and coverage 90%.  The
`hclaims` hypothesis is the claims-store key invariant: the store is keyed
by `(qid, pid)`, so one entity never holds two claim rows for the same
property. -/
theorem C7_property_ranking (claimsStore : List Claim)
    (props : String → Option WikidataProperty) (qids : List String)
    (hnd : qids.Nodup)
    (hclaims : ∀ q ∈ qids, ((getClaimsByQid claimsStore q).map (fun c => c.pid)).Nodup) :
    (∀ stat ∈ calculatePropertyStats claimsStore props qids,
      stat.count = rowCoverage claimsStore qids stat.pid ∧
      0 < rowCoverage claimsStore qids stat.pid ∧
      stat.percentage = jsRoundPct (rowCoverage claimsStore qids stat.pid) qids.length ∧
      ∃ property, props stat.pid = some property ∧
        stat.globalUsage = property.usage ∧ stat.visible = property.visible ∧
        stat.label = property.label ∧ stat.description = property.description) ∧
    (∀ pid property, props pid = some property →
      0 < rowCoverage claimsStore qids pid →
      ∃ stat ∈ calculatePropertyStats claimsStore props qids, stat.pid = pid) ∧
    List.Pairwise (fun a b => propertyCompare a b = true)
      (calculatePropertyStats claimsStore props qids) ∧
    (∀ a b : AvailableProperty, propertyCompare a b = true ↔
      (b.globalUsage < a.globalUsage ∨
        (a.globalUsage = b.globalUsage ∧ b.percentage ≤ a.percentage))) ∧
    calculatePropertyStats
      [⟨"Q1", "P1", [], 1⟩, ⟨"Q2", "P1", [], 1⟩, ⟨"Q3", "P1", [], 1⟩, ⟨"Q4", "P1", [], 1⟩,
       ⟨"Q1", "P2", [], 1⟩, ⟨"Q2", "P2", [], 1⟩, ⟨"Q3", "P2", [], 1⟩, ⟨"Q4", "P2", [], 1⟩,
       ⟨"Q5", "P2", [], 1⟩, ⟨"Q6", "P2", [], 1⟩, ⟨"Q7", "P2", [], 1⟩, ⟨"Q8", "P2", [], 1⟩,
       ⟨"Q9", "P2", [], 1⟩]
      (fun k => if k = "P1" then some ⟨"P1", "X", "", 10, true, 1⟩
                else if k = "P2" then some ⟨"P2", "Y", "", 5, true, 1⟩ else none)
      ["Q1", "Q2", "Q3", "Q4", "Q5", "Q6", "Q7", "Q8", "Q9", "Q10"]
      = [⟨"P1", "X", "", 4, 40, true, 10⟩, ⟨"P2", "Y", "", 9, 90, true, 5⟩] := by
  have hcmp : ∀ a b : AvailableProperty, propertyCompare a b = true ↔
      (b.globalUsage < a.globalUsage ∨
        (a.globalUsage = b.globalUsage ∧ b.percentage ≤ a.percentage)) := by
    intro a b
    simp [propertyCompare]
  refine ⟨?_, ?_, ?_, hcmp, by decide⟩
  · intro stat hstat
    have hstat2 : stat ∈ (availablePropertiesOf claimsStore props qids).mergeSort
        propertyCompare := hstat
    have hmem : stat ∈ availablePropertiesOf claimsStore props qids :=
      (List.mergeSort_perm (availablePropertiesOf claimsStore props qids)
        propertyCompare).mem_iff.mp hstat2
    rcases availableProperties_mem.mp hmem with ⟨e, he, property, hprop, rfl⟩
    rcases e with ⟨pid, c⟩
    obtain ⟨hval, hpos⟩ := propertyCounts_val hclaims he
    refine ⟨by simpa [mkAvailable] using hval, by simpa [mkAvailable] using hpos,
      by simp [mkAvailable, hval], property, by simpa [mkAvailable] using hprop,
      by simp [mkAvailable], by simp [mkAvailable], by simp [mkAvailable],
      by simp [mkAvailable]⟩
  · intro pid property hprop hpos
    have hmem : mkAvailable qids.length (pid, rowCoverage claimsStore qids pid) property
        ∈ availablePropertiesOf claimsStore props qids :=
      availableProperties_mem.mpr
        ⟨(pid, rowCoverage claimsStore qids pid), propertyCounts_complete hclaims hpos,
          property, hprop, rfl⟩
    refine ⟨mkAvailable qids.length (pid, rowCoverage claimsStore qids pid) property,
      ?_, rfl⟩
    exact (List.mergeSort_perm (availablePropertiesOf claimsStore props qids)
      propertyCompare).mem_iff.mpr hmem
  · have htrans : ∀ a b c : AvailableProperty, propertyCompare a b = true →
        propertyCompare b c = true → propertyCompare a c = true := by
      intro a b c hab hbc
      rw [hcmp] at hab hbc ⊢
      omega
    have htotal : ∀ a b : AvailableProperty,
        (propertyCompare a b || propertyCompare b a) = true := by
      intro a b
      rcases Nat.lt_trichotomy a.globalUsage b.globalUsage with h | h | h
      · refine Bool.or_eq_true_iff.mpr (Or.inr ((hcmp b a).mpr (Or.inl h)))
      · rcases Nat.le_total b.percentage a.percentage with h2 | h2
        · exact Bool.or_eq_true_iff.mpr (Or.inl ((hcmp a b).mpr (Or.inr ⟨h, h2⟩)))
        · exact Bool.or_eq_true_iff.mpr (Or.inr ((hcmp b a).mpr (Or.inr ⟨h.symm, h2⟩)))
      · exact Bool.or_eq_true_iff.mpr (Or.inl ((hcmp a b).mpr (Or.inl h)))
    exact List.sorted_mergeSort htrans htotal (availablePropertiesOf claimsStore props qids)

/-- Witness for C7 (amended): the usage-10/coverage-40% property ranks
above the usage-5/coverage-90% one on a concrete ten-row table. -/
theorem C7_property_ranking_witness :
    calculatePropertyStats
      [⟨"Q1", "P1", [], 1⟩, ⟨"Q2", "P1", [], 1⟩, ⟨"Q3", "P1", [], 1⟩, ⟨"Q4", "P1", [], 1⟩,
       ⟨"Q1", "P2", [], 1⟩, ⟨"Q2", "P2", [], 1⟩, ⟨"Q3", "P2", [], 1⟩, ⟨"Q4", "P2", [], 1⟩,
       ⟨"Q5", "P2", [], 1⟩, ⟨"Q6", "P2", [], 1⟩, ⟨"Q7", "P2", [], 1⟩, ⟨"Q8", "P2", [], 1⟩,
       ⟨"Q9", "P2", [], 1⟩]
      (fun k => if k = "P1" then some ⟨"P1", "X", "", 10, true, 1⟩
                else if k = "P2" then some ⟨"P2", "Y", "", 5, true, 1⟩ else none)
      ["Q1", "Q2", "Q3", "Q4", "Q5", "Q6", "Q7", "Q8", "Q9", "Q10"]
      = [⟨"P1", "X", "", 4, 40, true, 10⟩, ⟨"P2", "Y", "", 9, 90, true, 5⟩] :=
  (C7_property_ranking
    [⟨"Q1", "P1", [], 1⟩, ⟨"Q2", "P1", [], 1⟩, ⟨"Q3", "P1", [], 1⟩, ⟨"Q4", "P1", [], 1⟩,
     ⟨"Q1", "P2", [], 1⟩, ⟨"Q2", "P2", [], 1⟩, ⟨"Q3", "P2", [], 1⟩, ⟨"Q4", "P2", [], 1⟩,
     ⟨"Q5", "P2", [], 1⟩, ⟨"Q6", "P2", [], 1⟩, ⟨"Q7", "P2", [], 1⟩, ⟨"Q8", "P2", [], 1⟩,
     ⟨"Q9", "P2", [], 1⟩]
    (fun k => if k = "P1" then some ⟨"P1", "X", "", 10, true, 1⟩
              else if k = "P2" then some ⟨"P2", "Y", "", 5, true, 1⟩ else none)
    ["Q1", "Q2", "Q3", "Q4", "Q5", "Q6", "Q7", "Q8", "Q9", "Q10"]
    (by decide) (by decide)).2.2.2.2
